import Mathlib
set_option maxRecDepth 4000
/-!
Verification development for the SproutCore Costello property-observing
library (`SC.Observable`, src/frameworks/costello/mixins/observable.js) and
the statechart substate type (`SC.Substate`) that shares the same source
file.  The JavaScript is embedded shallowly: an observable object becomes an
explicit state record, every mutating method becomes a state-passing
function, and observer/handler invocations are recorded in logs (the claims
under study assume observers that do not themselves mutate properties, so an
invocation has no effect beyond being recorded).
-/

abbrev Key := String

/-- A defined JavaScript value.  `Option Val` is used wherever the source
distinguishes `undefined` (`none`) from a defined value. -/
inductive Val where
  | num (n : Int)
  | str (s : String)
  | bool (b : Bool)
  | null
deriving DecidableEq, Repr

/-- One observer invocation as performed by `_notifyPropertyObservers`:
`method.call(target, this, key, null, rev)`.  `target = none` models the
`null`-for-self normal form used by the observer sets. -/
structure LogEntry where
  target : Option Nat
  method : Nat
  key : Key
  rev : Nat
deriving DecidableEq, Repr

/-- Modelled from the spec: a member of `SC._ObserverSet`
(`private/observer_set`, required by the source but not under src/): the
triple `[target, method, revision]` that `getMembers()` exposes and that the
flush loop stamps via `member[2] = rev`. -/
structure Reg where
  target : Option Nat
  method : Nat
  rev : Nat
deriving DecidableEq, Repr

/-- A computed-property descriptor: the property function together with the
`isCacheable`/`isVolatile` flags and the per-descriptor `cacheKey` /
`lastSetValueKey` slots (`undefined` = `none`).  The property function is
modelled as a pure function of the value argument (`none` for a `get`
invocation, `some v` for `set(key, v)`); its result may be `undefined`. -/
structure CompProp where
  fn : Option Val → Option Val
  isCacheable : Bool
  isVolatile : Bool
  cache : Option Val
  lastSet : Option Val

/-- A property slot of an observable object: a plain value or a computed
property (`ret && ret.isProperty` in `get`/`set`). -/
inductive Slot where
  | plain (v : Val)
  | comp (c : CompProp)

/-- The KVO-relevant state of one observable object.  Missing association
entries model `undefined` object slots.  `suppressed` lists the keys for
which `automaticallyNotifiesObserversFor` returns `NO`; `suspended` models
`SC.Observers.isObserveringSuspended`.  `log` records observer invocations
and `fnCalls` records computed-property-function invocations. -/
structure Obj where
  props : List (Key × Slot)
  observers : List (Key × List Reg)
  dependents : List (Key × List Key)
  cachedDependents : List (Key × List Key)
  suppressed : List Key
  suspended : Bool
  changeLevel : Int
  changes : List Key
  revision : Nat
  propertyRevision : Nat
  log : List LogEntry
  fnCalls : List (Key × Option Val)

def lookupAssoc {α : Type} : List (Key × α) → Key → Option α
  | [], _ => none
  | (k', v) :: t, k => if k' = k then some v else lookupAssoc t k

def setAssoc {α : Type} : List (Key × α) → Key → α → List (Key × α)
  | [], k, v => [(k, v)]
  | (k', v') :: t, k, v => if k' = k then (k, v) :: t else (k', v') :: setAssoc t k v

/-- Modelled from the spec: `SC.Set.add` — the pending-changes set coalesces
duplicate keys (`SC.Set` lives in the runtime, not under src/; the spec says
the key is "added to a pending set (coalescing duplicates)"). -/
def addSet (s : List Key) (k : Key) : List Key :=
  if k ∈ s then s else s ++ [k]

def observersFor (o : Obj) (k : Key) : List Reg :=
  (lookupAssoc o.observers k).getD []

def setSlot (o : Obj) (k : Key) (s : Slot) : Obj :=
  { o with props := setAssoc o.props k s }

/-- The `cacheKey` slot of key `k`'s descriptor (`none` when the slot does
not hold a computed property). -/
def cacheOf (o : Obj) (k : Key) : Option Val :=
  match lookupAssoc o.props k with
  | some (.comp c) => c.cache
  | _ => none

/-- The `lastSetValueKey` slot of key `k`'s descriptor. -/
def lastSetOf (o : Obj) (k : Key) : Option Val :=
  match lookupAssoc o.props k with
  | some (.comp c) => c.lastSet
  | _ => none

def mkEntry (k : Key) (rev : Nat) (r : Reg) : LogEntry :=
  ⟨r.target, r.method, k, rev⟩

/-- The member loop of `_notifyPropertyObservers` for one key: walk the
member array in order, skip members already stamped with this flush's
revision (`member[2] === rev`), otherwise stamp the member and invoke it. -/
def stampMembers (k : Key) (rev : Nat) : List Reg → List Reg × List LogEntry
  | [] => ([], [])
  | r :: rs =>
    let p := stampMembers k rev rs
    if r.rev = rev then (r :: p.1, p.2)
    else ({ r with rev := rev } :: p.1, mkEntry k rev r :: p.2)

/-- Notification for a single changed key inside the flush: the key's own
observers (with revision stamping), then the star observers (notified for
every key other than `*` itself, without stamping).  `_kvo_local` observers
are injected by `SC.Object` (out of the modelled scope) and the default
`propertyObserver` hook is an empty function. -/
def notifyOneKey (o : Obj) (rev : Nat) (k : Key) : Obj :=
  let o1 :=
    match lookupAssoc o.observers k with
    | none => o
    | some regs =>
      let p := stampMembers k rev regs
      { o with observers := setAssoc o.observers k p.1, log := o.log ++ p.2 }
  let star := (lookupAssoc o1.observers "*").getD []
  if k = "*" then o1 else { o1 with log := o1.log ++ star.map (mkEntry k rev) }

def notifyKeys : Obj → Nat → List Key → Obj
  | o, _, [] => o
  | o, rev, k :: ks => notifyKeys (notifyOneKey o rev k) rev ks

/-- Dependent-key expansion step `changes.add(key); if cacheable clear the
cached value` (only the `cacheKey` slot is cleared here). -/
def clearDependentCache (o : Obj) (k : Key) : Obj :=
  match lookupAssoc o.props k with
  | some (.comp c) => if c.isCacheable then setSlot o k (.comp { c with cache := none }) else o
  | _ => o

def expandOne (acc : List Key × Obj) (dk : Key) : List Key × Obj :=
  (addSet acc.1 dk, clearDependentCache acc.2 dk)

/-- The dependent-key expansion loop of `_notifyPropertyObservers`: walk the
(growing) captured change set by index; for each key append its dependents
(the source iterates each dependent list in reverse via `while(--loc >= 0)`),
clearing the cache of every cacheable dependent.  Fuel-based: the wrapper
passes enough fuel for any duplicate-free change set. -/
def expandStep : Nat → List Key × Obj → Nat → List Key × Obj
  | 0, p, _ => p
  | fuel + 1, p, idx =>
    if h : idx < p.1.length then
      let k := p.1.get ⟨idx, h⟩
      let ks := (lookupAssoc p.2.dependents k).getD []
      expandStep fuel (ks.reverse.foldl expandOne p) (idx + 1)
    else p

def totalDeps (o : Obj) : Nat :=
  (o.dependents.map (fun e => e.2.length)).sum

def expandDependents (o : Obj) (changes : List Key) : List Key × Obj :=
  expandStep (changes.length + totalDeps o + 1) (changes, o) 0

/-- One iteration of the flush loop in `_notifyPropertyObservers`: take the
flush revision (`rev = this.propertyRevision++`), capture the pending set and
swap in a fresh one, add the passed key, expand dependent keys, then notify
each captured key once (processed from the end, `changes.pop()`).  The
wildcard `'*'` key argument (only reachable through
`allPropertiesDidChange`) is outside the modelled claims. -/
def flushIter (o : Obj) (key : Option Key) : Obj :=
  let rev := o.propertyRevision
  let captured :=
    match key with
    | some k => addSet o.changes k
    | none => o.changes
  let o1 := { o with propertyRevision := rev + 1, changes := [] }
  let p := expandDependents o1 captured
  notifyKeys p.2 rev p.1.reverse

/-- The outer `while` of `_notifyPropertyObservers`, fuel-based.  In this
embedding observers are non-mutating, so one iteration always empties the
pending set (`flushIter_changes` below) and fuel 2 computes the loop's
fixpoint. -/
def flushLoop : Nat → Obj → Option Key → Obj
  | 0, o, _ => o
  | fuel + 1, o, key =>
    if o.changes = [] ∧ key = none then o
    else flushLoop fuel (flushIter o key) none

/-- Source `_notifyPropertyObservers(key)`: raise the change level
(`(lvl || 0) + 1`), run the flush loop, lower the change level
(`(lvl || 1) - 1`).  The `initObservable` / `SC.Observers.flush()` preamble
concerns objects not yet initialized and the global observer queue, outside
the modelled scope. -/
def notifyPropertyObservers (o : Obj) (key : Option Key) : Obj :=
  let o1 := { o with changeLevel := o.changeLevel + 1 }
  let o2 := flushLoop 2 o1 key
  { o2 with changeLevel := if o2.changeLevel = 0 then 0 else o2.changeLevel - 1 }

/-- Source `propertyDidChange(key)`: bump `_kvo_revision`, clear the key's own
cached value and last-set value if its slot is a cacheable computed
property, then either queue the key (batching or suspended) or notify
immediately.  (`SC.Observers.objectHasPendingChanges` is a global-queue
registration with no per-object effect.) -/
def propertyDidChange (o : Obj) (k : Key) : Obj :=
  let o2 :=
    match lookupAssoc o.props k with
    | some (Slot.comp c) =>
      if c.isCacheable then
        setSlot { o with revision := o.revision + 1 } k (.comp { c with cache := none, lastSet := none })
      else { o with revision := o.revision + 1 }
    | _ => { o with revision := o.revision + 1 }
  if 0 < o.changeLevel ∨ o.suspended then { o2 with changes := addSet o2.changes k }
  else notifyPropertyObservers o2 (some k)

def beginPropertyChanges (o : Obj) : Obj :=
  { o with changeLevel := o.changeLevel + 1 }

/-- Source `endPropertyChanges`: `(lvl || 1) - 1`, then flush if the level reached
zero and changes are pending. -/
def endPropertyChanges (o : Obj) : Obj :=
  let lvl : Int := (if o.changeLevel = 0 then 1 else o.changeLevel) - 1
  if lvl ≤ 0 ∧ o.changes ≠ [] then notifyPropertyObservers { o with changeLevel := lvl } none
  else { o with changeLevel := lvl }

/-- The clearing `this[func.cacheKey] = this[func.lastSetValueKey] =
undefined` applied to the descriptor registered under key `k`. -/
def clearCompSlots (o : Obj) (k : Key) : Obj :=
  match lookupAssoc o.props k with
  | some (.comp c) => setSlot o k (.comp { c with cache := none, lastSet := none })
  | _ => o

/-- The epilogue of `set`: clear the cache slot and the last-set-value slot
of every cache-eligible dependent of `key` (the source iterates the
`_kvo_cachedDependents[key]` array in reverse). -/
def clearCachedDependentsOf (o : Obj) (k : Key) : Obj :=
  match lookupAssoc o.cachedDependents k with
  | none => o
  | some ds => ds.reverse.foldl clearCompSlots o

/-- Source `get(key)`: plain values are returned directly; a computed property is
invoked, caching the result when `isCacheable` and the cache slot is
`undefined`; an absent slot goes through the default `unknownProperty`,
which returns `undefined` for a get.  Returns the value and the state. -/
def Obj.get (o : Obj) (k : Key) : Option Val × Obj :=
  match lookupAssoc o.props k with
  | none => (none, o)
  | some (.plain v) => (some v, o)
  | some (.comp c) =>
    if c.isCacheable then
      match c.cache with
      | some v => (some v, o)
      | none =>
        let r := c.fn none
        (r, setSlot { o with fnCalls := o.fnCalls ++ [(k, none)] } k (.comp { c with cache := r }))
    else (c.fn none, { o with fnCalls := o.fnCalls ++ [(k, none)] })

/-- Source `set(key, value)` for a defined value: the computed-property branch
(dedup on the last-set slot unless volatile, record the value, invoke,
update the cache when cacheable, notify unless suppressed), the
absent-slot branch (default `unknownProperty` stores the value, always
bracketed by notifications when not suppressed), and the plain branch
(store and notify only when the value differs).  `propertyWillChange` is a
no-op in the source.  Afterwards every cache-eligible dependent of the key
is cleared. -/
def setBody (o : Obj) (k : Key) (v : Val) : Obj :=
  let notify := k ∉ o.suppressed
  match lookupAssoc o.props k with
  | some (.comp c) =>
    if c.isVolatile ∨ c.lastSet ≠ some v then
      let oa := setSlot o k (.comp { c with lastSet := some v })
      let r := c.fn (some v)
      let ob := { oa with fnCalls := oa.fnCalls ++ [(k, some v)] }
      let oc := if c.isCacheable then setSlot ob k (.comp { c with lastSet := some v, cache := r }) else ob
      if notify then propertyDidChange oc k else oc
    else o
  | some (.plain w) =>
    if w ≠ v then
      let oa := setSlot o k (.plain v)
      if notify then propertyDidChange oa k else oa
    else o
  | none =>
    let oa := setSlot o k (.plain v)
    if notify then propertyDidChange oa k else oa

def Obj.set (o : Obj) (k : Key) (v : Val) : Obj :=
  clearCachedDependentsOf (setBody o k v) k

/-- Source `registerDependentKey(key, dep)` — the loop body of the source's
variadic registration for a single dependency name: append `key` to
`_kvo_dependents[dep]` and, when `key`'s own descriptor is cacheable, append
the descriptor (identified here by its key) to
`_kvo_cachedDependents[dep]`. -/
def appendAssoc (l : List (Key × List Key)) (k : Key) (v : Key) : List (Key × List Key) :=
  setAssoc l k ((lookupAssoc l k).getD [] ++ [v])

def registerDependentKey (o : Obj) (key dep : Key) : Obj :=
  let o1 := { o with dependents := appendAssoc o.dependents dep key }
  match lookupAssoc o1.props key with
  | some (Slot.comp c) =>
    if c.isCacheable then { o1 with cachedDependents := appendAssoc o1.cachedDependents dep key }
    else o1
  | _ => o1

/-- A batch of `set` calls on one key. -/
def applySets (o : Obj) (k : Key) (vs : List Val) : Obj :=
  vs.foldl (fun ob v => Obj.set ob k v) o

/-- How many of the logged invocations went to observer `(t, m)` for key
`k`. -/
def countInv (l : List LogEntry) (t : Option Nat) (m : Nat) (k : Key) : Nat :=
  List.countP (fun e => decide (e.target = t ∧ e.method = m ∧ e.key = k)) l

/-- Source `n` repetitions of `get k` (keeping only the state). -/
def getN (o : Obj) (k : Key) : Nat → Obj
  | 0 => o
  | n + 1 => ((getN o k n).get k).2

/-- The property-change operations whose sequences the change-level
invariant quantifies over. -/
inductive KvoOp where
  | begin
  | endp
  | flush (key : Option Key)

def applyKvoOps : Obj → List KvoOp → Obj
  | o, [] => o
  | o, KvoOp.begin :: ops => applyKvoOps (beginPropertyChanges o) ops
  | o, KvoOp.endp :: ops => applyKvoOps (endPropertyChanges o) ops
  | o, KvoOp.flush key :: ops => applyKvoOps (notifyPropertyObservers o key) ops

/-- A minimal concrete observable object used by witnesses. -/
def oW : Obj := ⟨[], [], [], [], [], false, 0, [], 0, 1, [], []⟩

/-- A cacheable computed property whose function always returns
`undefined`. -/
def o10w : Obj :=
  { oW with props := [("q", Slot.comp ⟨fun _ => none, true, false, none, none⟩)] }

/-- The cacheable, non-volatile, auto-notifying computed property used in
the C7 counterexample. -/
def c7d : CompProp := ⟨fun _ => some (Val.num 1), true, false, none, none⟩

def o7x : Obj := { oW with props := [("k", Slot.comp c7d)] }

/-- Predicate used to state descriptor stability: key `P` holds a computed
property with the same function and flags as `c` (the cache and last-set
slots may differ). -/
def descrShape (o : Obj) (P : Key) (c : CompProp) : Prop :=
  ∃ ca ls, lookupAssoc o.props P
    = some (Slot.comp ⟨c.fn, c.isCacheable, c.isVolatile, ca, ls⟩)

/-- The base/dependent pair used by the C2 counterexample: `p` is cacheable,
depends on `b`, and its function returns `undefined`. -/
def o2x : Obj :=
  registerDependentKey
    { oW with props := [("b", Slot.plain (Val.num 0)),
        ("p", Slot.comp ⟨fun _ => none, true, false, none, none⟩)] } "p" "b"

/-- The base/dependent pair used by the C2 witness: as `o2x` but the
function returns the defined value `7`. -/
def c2w : CompProp := ⟨fun _ => some (Val.num 7), true, false, none, none⟩

def o2w : Obj :=
  registerDependentKey
    { oW with props := [("b", Slot.plain (Val.num 0)), ("p", Slot.comp c2w)] } "p" "b"

/-- A plain property with one observer registration, used by the C1
witness. -/
def o1w : Obj :=
  { oW with props := [("a", Slot.plain (Val.num 1))], observers := [("a", [⟨none, 7, 0⟩])] }

/-- Source `ret !== NO`: a dispatched handler's return value counts as "handled"
unless it is strictly equal to `false` (`undefined` = `none` counts as
handled). -/
def jsNotNO : Option Val → Bool
  | some (Val.bool false) => false
  | _ => true

/-- A registered pattern (regular-expression) event handler: its name, the
value it returns when dispatched, and the match test `event.match(regexp)`
as a black-box predicate. -/
structure RegExpHandler where
  name : String
  ret : Option Val
  matchTest : String → Bool

/-- The event-routing registries of one `SC.Substate`, as built by
`initState`: the keys of `_registeredEventHandlers` and
`_registeredStateObserveHandlers`, the function-valued members
(`SC.typeOf(this[event]) === SC.T_FUNCTION`), `_registeredStringEventHandlers`
(event string ↦ handler name and return value),
`_registeredRegExpEventHandlers` in registration order, and the optional
`unknownEvent` function.  Handlers are modelled by the (pure) value they
return when dispatched. -/
structure StateNode where
  registeredEventHandlerNames : List String
  registeredStateObserveHandlerNames : List String
  methods : List (String × Option Val)
  stringHandlers : List (String × String × Option Val)
  regexpHandlers : List RegExpHandler
  unknownEvent : Option (Option Val)

/-- The outcome of `tryToHandleEvent`: whether the event counts as handled,
which handler name was dispatched (reported to
`stateWillTryToHandleEvent`/`stateDidTryToHandleEvent`; `none` when nothing
was dispatched), and whether a name-collision warning was logged. -/
structure HandleResult where
  handled : Bool
  dispatched : Option String
  warned : Bool
deriving DecidableEq, Repr

/-- Source `tryToHandleEvent(event)`: reject event names that collide with a
registered event handler or state-observe handler (warning, not handled);
otherwise dispatch, first match wins: same-named method, literal string
handler, first matching pattern handler in registration order, then
`unknownEvent` if declared; a dispatched handler's return of exactly `false`
means "not handled". -/
def tryToHandleEvent (s : StateNode) (event : String) : HandleResult :=
  if event ∈ s.registeredEventHandlerNames then ⟨false, none, true⟩
  else if event ∈ s.registeredStateObserveHandlerNames then ⟨false, none, true⟩
  else
    match lookupAssoc s.methods event with
    | some rv => ⟨jsNotNO rv, some event, false⟩
    | none =>
      match lookupAssoc s.stringHandlers event with
      | some p => ⟨jsNotNO p.2, some p.1, false⟩
      | none =>
        match s.regexpHandlers.find? (fun h => h.matchTest event) with
        | some h => ⟨jsNotNO h.ret, some h.name, false⟩
        | none =>
          match s.unknownEvent with
          | some rv => ⟨jsNotNO rv, some "unknownEvent", false⟩
          | none => ⟨false, none, false⟩

/-- Source `respondsToEvent(event)`: note the source checks the state-observe
registry only after the same-named-method and string-handler checks, unlike
`tryToHandleEvent`. -/
def respondsToEvent (s : StateNode) (event : String) : Bool :=
  if event ∈ s.registeredEventHandlerNames then false
  else if (lookupAssoc s.methods event).isSome then true
  else if (lookupAssoc s.stringHandlers event).isSome then true
  else if event ∈ s.registeredStateObserveHandlerNames then false
  else if (s.regexpHandlers.find? (fun h => h.matchTest event)).isSome then true
  else s.unknownEvent.isSome

/-- The node used to witness C3: an event handler named `evh` registered
for the literal event string `go`. -/
def sn3 : StateNode :=
  { registeredEventHandlerNames := ["evh"], registeredStateObserveHandlerNames := [],
    methods := [("evh", some (Val.num 0))], stringHandlers := [("go", "evh", some (Val.num 1))],
    regexpHandlers := [], unknownEvent := none }

/-- The node used in the C8 counterexample: a registered state-observe
handler, which (as `initState` does) is also a function-valued member of
the state. -/
def sn8 : StateNode :=
  { registeredEventHandlerNames := [], registeredStateObserveHandlerNames := ["fooDidChange"],
    methods := [("fooDidChange", some Val.null)], stringHandlers := [],
    regexpHandlers := [], unknownEvent := none }

/-- Modelled from the spec: `SC.StatePathMatcher` is the out-of-scope
path-matching collaborator (spec §6): a parsed path expression exposing its
raw text, its token list, its terminal token (`lastPart`), and a black-box
match test on candidate relative paths. -/
structure PathMatcher where
  expr : String
  tokens : List String
  lastPart : String
  matchTest : String → Bool

/-- A value passed to the lookup and goto entry points: either a substate
object (identified by a state id) or a string path expression carried with
its parsed matcher. -/
inductive StateValue where
  | obj (sid : Nat)
  | path (m : PathMatcher)

/-- The per-node data used by substate lookup and transition entry points:
the node's name and parent, `_registeredSubstates`,
`_registeredSubstatePaths` (terminal path segment ↦ relative path ↦ state),
and the `currentSubstates`/`enteredSubstates` bookkeeping. -/
structure StateRec where
  name : String
  parent : Option Nat
  registeredSubstates : List Nat
  registeredSubstatePaths : List (String × List (String × Nat))
  currentSubstates : List Nat
  enteredSubstates : List Nat
deriving DecidableEq, Repr

/-- A statechart as an arena of state records addressed by id. -/
structure Chart where
  states : List StateRec
deriving DecidableEq, Repr

def stateAt (c : Chart) (sid : Nat) : Option StateRec := c.states[sid]?

/-- The core of `getSubstate`'s string-expression branch: no tokens, no
match, a unique match, or an ambiguous match (which reports every
registered path sharing the terminal segment). -/
inductive SubLookup where
  | noTokens
  | notFound
  | found (sid : Nat)
  | ambiguous (keys : List String)
deriving DecidableEq, Repr

def subLookup (st : StateRec) (m : PathMatcher) : SubLookup :=
  if m.tokens = [] then .noTokens
  else
    match lookupAssoc st.registeredSubstatePaths m.lastPart with
    | none => .notFound
    | some paths =>
      match paths.filter (fun p => m.matchTest p.1) with
      | [p] => .found p.2
      | [] => .notFound
      | _ :: _ :: _ => .ambiguous (paths.map (fun p => p.1))

/-- What `getSubstate` returns: a substate, the result of invoking the
optional callback, or `null`. -/
inductive GSRes where
  | state (sid : Nat)
  | cbRes (r : Option Val)
  | nullRes
deriving DecidableEq, Repr

/-- The observable outcome of a `getSubstate` call: its result, the
keys-argument the callback was invoked with (`none` when the callback was
not invoked; `some none` when invoked without candidate paths), and whether
the ambiguity error was logged. -/
structure GSOut where
  res : GSRes
  cbArg : Option (Option (List String))
  errorLogged : Bool
deriving DecidableEq

/-- Source `_notifySubstateNotFound`: invoke the callback when given, else
`null`. -/
def notifySubstateNotFound (cb : Option (Option (List String) → Option Val))
    (keys : Option (List String)) : GSOut :=
  match cb with
  | some f => ⟨.cbRes (f keys), some keys, false⟩
  | none => ⟨.nullRes, none, false⟩

/-- Source `getSubstate(value, callback)`: an object value is returned iff it is a
registered substate; a path expression with no tokens returns `null`
outright; otherwise zero matches go through `_notifySubstateNotFound`
without keys, a unique match is returned, and an ambiguous match either
invokes the callback with every registered path sharing the terminal
segment or logs an error and returns `null`. -/
def getSubstate (st : StateRec) (v : StateValue)
    (cb : Option (Option (List String) → Option Val)) : GSOut :=
  match v with
  | .obj sid =>
    if sid ∈ st.registeredSubstates then ⟨.state sid, none, false⟩
    else ⟨.nullRes, none, false⟩
  | .path m =>
    match subLookup st m with
    | .noTokens => ⟨.nullRes, none, false⟩
    | .found sid => ⟨.state sid, none, false⟩
    | .notFound => notifySubstateNotFound cb none
    | .ambiguous keys =>
      match cb with
      | some f => ⟨.cbRes (f (some keys)), some (some keys), false⟩
      | none => ⟨.nullRes, none, true⟩

/-- Source `getSubstate` without a callback, as used by `gotoSubstate`. -/
def getSubstateNoCb (st : StateRec) (v : StateValue) : Option Nat :=
  match (getSubstate st v none).res with
  | .state sid => some sid
  | _ => none

/-- Source `getState(value)`: return this state for its own name, any substate
object as-is, and otherwise resolve the path here, recursing to the parent
(via `_handleSubstateNotFound`) when the lookup finds nothing or is
ambiguous.  Fuel-based recursion over the (acyclic) parent chain; the
wrapper calls pass fuel exceeding the number of states. -/
def getState (c : Chart) : Nat → Nat → StateValue → Option Nat
  | 0, _, _ => none
  | fuel + 1, sid, v =>
    match stateAt c sid with
    | none => none
    | some st =>
      match v with
      | .obj osid => some osid
      | .path m =>
        if m.expr = st.name then some sid
        else
          match subLookup st m with
          | .found t => some t
          | .noTokens => none
          | .notFound =>
            match st.parent with
            | some p => getState c fuel p v
            | none => none
          | .ambiguous _ =>
            match st.parent with
            | some p => getState c fuel p v
            | none => none

/-- Source `findFirstRelativeCurrentState(anchor)`: this state when current;
otherwise the parent's first relative current state when no child is
current; with more than one current child, follow the anchor when it
resolves, else the first current substate. -/
def findFirstRelativeCurrentState (c : Chart) : Nat → Nat → Option StateValue → Option Nat
  | 0, _, _ => none
  | fuel + 1, sid, anchor =>
    match stateAt c sid with
    | none => none
    | some st =>
      if sid ∈ st.currentSubstates then some sid
      else if st.currentSubstates.length = 0 then
        match st.parent with
        | some p => findFirstRelativeCurrentState c fuel p none
        | none => none
      else if 1 < st.currentSubstates.length then
        match anchor.bind (fun a => getSubstateNoCb st a) with
        | some a => findFirstRelativeCurrentState c fuel a none
        | none => st.currentSubstates.head?
      else st.currentSubstates.head?

/-- A request to the statechart's transition orchestrator (spec §4.6, an
external collaborator): `gotoState(target, fromState, false, context)` or
`gotoHistoryState(target, fromState, recursive, context)`. -/
inductive OrchCall where
  | goto (target : Nat) (fromState : Option Nat)
  | gotoHistory (target : Nat) (fromState : Option Nat) (recursive : Bool)
deriving DecidableEq, Repr

/-- The observable outcome of a goto entry point: the resulting chart
(current/entered bookkeeping), whether an error was logged, and the
orchestrator call that was made, if any. -/
structure GotoOutcome where
  chart : Chart
  errorLogged : Bool
  call : Option OrchCall
deriving DecidableEq

/-- Source `gotoSubstate(value, context)`: resolve the value with `getSubstate`;
on failure log an error and return; otherwise compute the from-state with
`findFirstRelativeCurrentState(target)` and hand over to the statechart's
`gotoState`.  The orchestrator is the spec-external collaborator, passed as
a parameter. -/
def gotoSubstate (orch : OrchCall → Chart → Chart) (c : Chart) (sid : Nat)
    (v : StateValue) : GotoOutcome :=
  match stateAt c sid with
  | none => ⟨c, true, none⟩
  | some st =>
    match getSubstateNoCb st v with
    | none => ⟨c, true, none⟩
    | some target =>
      let fromS := findFirstRelativeCurrentState c (c.states.length + 1) sid
        (some (.obj target))
      ⟨orch (.goto target fromS) c, false, some (.goto target fromS)⟩

/-- Source `gotoHistoryState(value, recursive, context)`: resolve with `getState`;
on failure log an error and return; otherwise delegate to the statechart's
`gotoHistoryState`. -/
def gotoHistoryState (orch : OrchCall → Chart → Chart) (c : Chart) (sid : Nat)
    (v : StateValue) (recursive : Bool) : GotoOutcome :=
  match getState c (c.states.length + 1) sid v with
  | none => ⟨c, true, none⟩
  | some target =>
    let fromS := findFirstRelativeCurrentState c (c.states.length + 1) sid
      (some (.obj target))
    ⟨orch (.gotoHistory target fromS recursive) c, false,
      some (.gotoHistory target fromS recursive)⟩

/-- The ambiguous lookup scenario used to witness C5: two registered paths
share the terminal segment `foo` and the expression matches both. -/
def st5 : StateRec :=
  { name := "root", parent := none, registeredSubstates := [1, 2],
    registeredSubstatePaths := [("foo", [("a.foo", 1), ("b.foo", 2)])],
    currentSubstates := [], enteredSubstates := [] }

def m5 : PathMatcher :=
  { expr := "foo", tokens := ["foo"], lastPart := "foo", matchTest := fun _ => true }

/-- The two-state chart used to witness C6. -/
def st6r : StateRec :=
  { name := "root", parent := none, registeredSubstates := [1],
    registeredSubstatePaths := [("a", [("a", 1)])], currentSubstates := [1],
    enteredSubstates := [1] }

def st6a : StateRec :=
  { name := "a", parent := some 0, registeredSubstates := [],
    registeredSubstatePaths := [], currentSubstates := [1], enteredSubstates := [1] }

def ch6 : Chart := ⟨[st6r, st6a]⟩

def mNope : PathMatcher :=
  { expr := "nope", tokens := ["nope"], lastPart := "nope", matchTest := fun _ => false }

/-- A deliberately destructive orchestrator: had the transition machinery
been invoked, the resulting chart would visibly differ. -/
def orchW : OrchCall → Chart → Chart := fun _ _ => ⟨[]⟩

/-! ### Association-list and pending-set lemmas -/

theorem lookupAssoc_setAssoc_self {α : Type} (l : List (Key × α)) (k : Key) (v : α) :
    lookupAssoc (setAssoc l k v) k = some v := by
  induction l with
  | nil => simp [setAssoc, lookupAssoc]
  | cons e t ih =>
    by_cases h : e.1 = k
    · simp [setAssoc, lookupAssoc, h]
    · simp [setAssoc, lookupAssoc, h, ih]

theorem lookupAssoc_setAssoc_ne {α : Type} (l : List (Key × α)) (k k' : Key) (v : α)
    (h : k' ≠ k) : lookupAssoc (setAssoc l k' v) k = lookupAssoc l k := by
  induction l with
  | nil => simp [setAssoc, lookupAssoc, h]
  | cons e t ih =>
    by_cases he : e.1 = k'
    · simp [setAssoc, lookupAssoc, he, h]
    · simp [setAssoc, lookupAssoc, he, ih]

theorem setAssoc_lookup_eq {α : Type} (l : List (Key × α)) (k : Key) (v : α)
    (h : lookupAssoc l k = some v) : setAssoc l k v = l := by
  induction l with
  | nil => simp [lookupAssoc] at h
  | cons e t ih =>
    obtain ⟨k1, v1⟩ := e
    by_cases he : k1 = k
    · simp only [lookupAssoc, if_pos he, Option.some.injEq] at h
      simp [setAssoc, he, h]
    · simp only [lookupAssoc, if_neg he] at h
      simp [setAssoc, he, ih h]

theorem mem_addSet_self (s : List Key) (k : Key) : k ∈ addSet s k := by
  by_cases h : k ∈ s <;> simp [addSet, h]

theorem mem_addSet_of_mem (s : List Key) (k k' : Key) (h : k' ∈ s) : k' ∈ addSet s k := by
  by_cases hk : k ∈ s <;> simp [addSet, hk, h]

theorem addSet_nodup (s : List Key) (k : Key) (h : s.Nodup) : (addSet s k).Nodup := by
  by_cases hk : k ∈ s
  · simpa [addSet, hk] using h
  · simp only [addSet, if_neg hk, List.nodup_append, List.nodup_singleton]
    refine ⟨h, trivial, ?_⟩
    intro a ha hb
    simp only [List.mem_singleton] at hb
    exact hk (hb ▸ ha)

theorem addSet_empty_or_self (s : List Key) (k : Key) (h : s = [] ∨ s = [k]) :
    addSet s k = [k] := by
  rcases h with h | h <;> simp [addSet, h]

/-! ### Field-preservation lemmas for the flush machinery -/

theorem notifyOneKey_fields (o : Obj) (rev : Nat) (k : Key) :
    (notifyOneKey o rev k).changeLevel = o.changeLevel ∧
    (notifyOneKey o rev k).changes = o.changes ∧
    (notifyOneKey o rev k).revision = o.revision ∧
    (notifyOneKey o rev k).propertyRevision = o.propertyRevision ∧
    (notifyOneKey o rev k).suspended = o.suspended ∧
    (notifyOneKey o rev k).props = o.props ∧
    (notifyOneKey o rev k).dependents = o.dependents ∧
    (notifyOneKey o rev k).cachedDependents = o.cachedDependents ∧
    (notifyOneKey o rev k).suppressed = o.suppressed ∧
    (notifyOneKey o rev k).fnCalls = o.fnCalls := by
  unfold notifyOneKey
  cases h : lookupAssoc o.observers k <;> by_cases hk : k = "*" <;> simp [h, hk]

theorem notifyKeys_fields (rev : Nat) (ks : List Key) (o : Obj) :
    (notifyKeys o rev ks).changeLevel = o.changeLevel ∧
    (notifyKeys o rev ks).changes = o.changes ∧
    (notifyKeys o rev ks).revision = o.revision ∧
    (notifyKeys o rev ks).propertyRevision = o.propertyRevision ∧
    (notifyKeys o rev ks).suspended = o.suspended ∧
    (notifyKeys o rev ks).props = o.props ∧
    (notifyKeys o rev ks).dependents = o.dependents ∧
    (notifyKeys o rev ks).cachedDependents = o.cachedDependents ∧
    (notifyKeys o rev ks).suppressed = o.suppressed ∧
    (notifyKeys o rev ks).fnCalls = o.fnCalls := by
  induction ks generalizing o with
  | nil => simp [notifyKeys]
  | cons k ks ih =>
    have h1 := notifyOneKey_fields o rev k
    have h2 := ih (notifyOneKey o rev k)
    simp only [notifyKeys]
    exact ⟨h2.1.trans h1.1, h2.2.1.trans h1.2.1, h2.2.2.1.trans h1.2.2.1,
      h2.2.2.2.1.trans h1.2.2.2.1, h2.2.2.2.2.1.trans h1.2.2.2.2.1,
      h2.2.2.2.2.2.1.trans h1.2.2.2.2.2.1, h2.2.2.2.2.2.2.1.trans h1.2.2.2.2.2.2.1,
      h2.2.2.2.2.2.2.2.1.trans h1.2.2.2.2.2.2.2.1,
      h2.2.2.2.2.2.2.2.2.1.trans h1.2.2.2.2.2.2.2.2.1,
      h2.2.2.2.2.2.2.2.2.2.trans h1.2.2.2.2.2.2.2.2.2⟩

theorem clearDependentCache_fields (o : Obj) (k : Key) :
    (clearDependentCache o k).changeLevel = o.changeLevel ∧
    (clearDependentCache o k).changes = o.changes ∧
    (clearDependentCache o k).revision = o.revision ∧
    (clearDependentCache o k).propertyRevision = o.propertyRevision ∧
    (clearDependentCache o k).suspended = o.suspended ∧
    (clearDependentCache o k).observers = o.observers ∧
    (clearDependentCache o k).dependents = o.dependents ∧
    (clearDependentCache o k).cachedDependents = o.cachedDependents ∧
    (clearDependentCache o k).suppressed = o.suppressed ∧
    (clearDependentCache o k).log = o.log ∧
    (clearDependentCache o k).fnCalls = o.fnCalls := by
  unfold clearDependentCache
  cases h : lookupAssoc o.props k with
  | none => simp
  | some s =>
    cases s with
    | plain v => simp
    | comp c => by_cases hc : c.isCacheable <;> simp [hc, setSlot]

theorem foldl_expandOne_fields (ks : List Key) (p : List Key × Obj) :
    (ks.foldl expandOne p).2.changeLevel = p.2.changeLevel ∧
    (ks.foldl expandOne p).2.changes = p.2.changes ∧
    (ks.foldl expandOne p).2.revision = p.2.revision ∧
    (ks.foldl expandOne p).2.propertyRevision = p.2.propertyRevision ∧
    (ks.foldl expandOne p).2.suspended = p.2.suspended ∧
    (ks.foldl expandOne p).2.observers = p.2.observers ∧
    (ks.foldl expandOne p).2.dependents = p.2.dependents ∧
    (ks.foldl expandOne p).2.cachedDependents = p.2.cachedDependents ∧
    (ks.foldl expandOne p).2.suppressed = p.2.suppressed ∧
    (ks.foldl expandOne p).2.log = p.2.log ∧
    (ks.foldl expandOne p).2.fnCalls = p.2.fnCalls := by
  induction ks generalizing p with
  | nil => simp
  | cons a t ih =>
    have h1 := clearDependentCache_fields p.2 a
    have h2 := ih (expandOne p a)
    simp only [List.foldl_cons]
    simp only [expandOne] at h2
    exact ⟨h2.1.trans h1.1, h2.2.1.trans h1.2.1, h2.2.2.1.trans h1.2.2.1,
      h2.2.2.2.1.trans h1.2.2.2.1, h2.2.2.2.2.1.trans h1.2.2.2.2.1,
      h2.2.2.2.2.2.1.trans h1.2.2.2.2.2.1, h2.2.2.2.2.2.2.1.trans h1.2.2.2.2.2.2.1,
      h2.2.2.2.2.2.2.2.1.trans h1.2.2.2.2.2.2.2.1,
      h2.2.2.2.2.2.2.2.2.1.trans h1.2.2.2.2.2.2.2.2.1,
      h2.2.2.2.2.2.2.2.2.2.1.trans h1.2.2.2.2.2.2.2.2.2.1,
      h2.2.2.2.2.2.2.2.2.2.2.trans h1.2.2.2.2.2.2.2.2.2.2⟩

theorem foldl_expandOne_mem (ks : List Key) (p : List Key × Obj) (x : Key) (hx : x ∈ p.1) :
    x ∈ (ks.foldl expandOne p).1 := by
  induction ks generalizing p with
  | nil => simpa using hx
  | cons a t ih =>
    simp only [List.foldl_cons]
    exact ih (expandOne p a) (mem_addSet_of_mem p.1 a x hx)

theorem foldl_expandOne_nodup (ks : List Key) (p : List Key × Obj) (h : p.1.Nodup) :
    (ks.foldl expandOne p).1.Nodup := by
  induction ks generalizing p with
  | nil => simpa using h
  | cons a t ih =>
    simp only [List.foldl_cons]
    exact ih (expandOne p a) (addSet_nodup p.1 a h)

theorem expandStep_fields (fuel : Nat) (p : List Key × Obj) (idx : Nat) :
    (expandStep fuel p idx).2.changeLevel = p.2.changeLevel ∧
    (expandStep fuel p idx).2.changes = p.2.changes ∧
    (expandStep fuel p idx).2.revision = p.2.revision ∧
    (expandStep fuel p idx).2.propertyRevision = p.2.propertyRevision ∧
    (expandStep fuel p idx).2.suspended = p.2.suspended ∧
    (expandStep fuel p idx).2.observers = p.2.observers ∧
    (expandStep fuel p idx).2.dependents = p.2.dependents ∧
    (expandStep fuel p idx).2.cachedDependents = p.2.cachedDependents ∧
    (expandStep fuel p idx).2.suppressed = p.2.suppressed ∧
    (expandStep fuel p idx).2.log = p.2.log ∧
    (expandStep fuel p idx).2.fnCalls = p.2.fnCalls := by
  induction fuel generalizing p idx with
  | zero => simp [expandStep]
  | succ n ih =>
    by_cases h : idx < p.1.length
    · simp only [expandStep, dif_pos h]
      set q := (((lookupAssoc p.2.dependents (p.1.get ⟨idx, h⟩)).getD []).reverse.foldl expandOne p) with hq
      have h1 := foldl_expandOne_fields ((lookupAssoc p.2.dependents (p.1.get ⟨idx, h⟩)).getD []).reverse p
      have h2 := ih q (idx + 1)
      rw [← hq] at h1
      exact ⟨h2.1.trans h1.1, h2.2.1.trans h1.2.1, h2.2.2.1.trans h1.2.2.1,
        h2.2.2.2.1.trans h1.2.2.2.1, h2.2.2.2.2.1.trans h1.2.2.2.2.1,
        h2.2.2.2.2.2.1.trans h1.2.2.2.2.2.1, h2.2.2.2.2.2.2.1.trans h1.2.2.2.2.2.2.1,
        h2.2.2.2.2.2.2.2.1.trans h1.2.2.2.2.2.2.2.1,
        h2.2.2.2.2.2.2.2.2.1.trans h1.2.2.2.2.2.2.2.2.1,
        h2.2.2.2.2.2.2.2.2.2.1.trans h1.2.2.2.2.2.2.2.2.2.1,
        h2.2.2.2.2.2.2.2.2.2.2.trans h1.2.2.2.2.2.2.2.2.2.2⟩
    · simp [expandStep, h]

theorem expandStep_mem (fuel : Nat) (p : List Key × Obj) (idx : Nat) (x : Key) (hx : x ∈ p.1) :
    x ∈ (expandStep fuel p idx).1 := by
  induction fuel generalizing p idx with
  | zero => simpa [expandStep] using hx
  | succ n ih =>
    by_cases h : idx < p.1.length
    · simp only [expandStep, dif_pos h]
      exact ih _ _ (foldl_expandOne_mem _ p x hx)
    · simpa [expandStep, h] using hx

theorem expandStep_nodup (fuel : Nat) (p : List Key × Obj) (idx : Nat) (h : p.1.Nodup) :
    (expandStep fuel p idx).1.Nodup := by
  induction fuel generalizing p idx with
  | zero => simpa [expandStep] using h
  | succ n ih =>
    by_cases hl : idx < p.1.length
    · simp only [expandStep, dif_pos hl]
      exact ih _ _ (foldl_expandOne_nodup _ p h)
    · simpa [expandStep, hl] using h

theorem notifyKeys_changeLevel (o : Obj) (rev : Nat) (ks : List Key) :
    (notifyKeys o rev ks).changeLevel = o.changeLevel := (notifyKeys_fields rev ks o).1

theorem notifyKeys_changes (o : Obj) (rev : Nat) (ks : List Key) :
    (notifyKeys o rev ks).changes = o.changes := (notifyKeys_fields rev ks o).2.1

theorem notifyKeys_revision (o : Obj) (rev : Nat) (ks : List Key) :
    (notifyKeys o rev ks).revision = o.revision := (notifyKeys_fields rev ks o).2.2.1

theorem notifyKeys_propertyRevision (o : Obj) (rev : Nat) (ks : List Key) :
    (notifyKeys o rev ks).propertyRevision = o.propertyRevision :=
  (notifyKeys_fields rev ks o).2.2.2.1

theorem notifyKeys_suspended (o : Obj) (rev : Nat) (ks : List Key) :
    (notifyKeys o rev ks).suspended = o.suspended := (notifyKeys_fields rev ks o).2.2.2.2.1

theorem notifyKeys_props (o : Obj) (rev : Nat) (ks : List Key) :
    (notifyKeys o rev ks).props = o.props := (notifyKeys_fields rev ks o).2.2.2.2.2.1

theorem notifyKeys_dependents (o : Obj) (rev : Nat) (ks : List Key) :
    (notifyKeys o rev ks).dependents = o.dependents := (notifyKeys_fields rev ks o).2.2.2.2.2.2.1

theorem notifyKeys_cachedDependents (o : Obj) (rev : Nat) (ks : List Key) :
    (notifyKeys o rev ks).cachedDependents = o.cachedDependents :=
  (notifyKeys_fields rev ks o).2.2.2.2.2.2.2.1

theorem notifyKeys_suppressed (o : Obj) (rev : Nat) (ks : List Key) :
    (notifyKeys o rev ks).suppressed = o.suppressed :=
  (notifyKeys_fields rev ks o).2.2.2.2.2.2.2.2.1

theorem notifyKeys_fnCalls (o : Obj) (rev : Nat) (ks : List Key) :
    (notifyKeys o rev ks).fnCalls = o.fnCalls := (notifyKeys_fields rev ks o).2.2.2.2.2.2.2.2.2

theorem expandStep_changeLevel (fuel : Nat) (p : List Key × Obj) (idx : Nat) :
    (expandStep fuel p idx).2.changeLevel = p.2.changeLevel := (expandStep_fields fuel p idx).1

theorem expandStep_changes (fuel : Nat) (p : List Key × Obj) (idx : Nat) :
    (expandStep fuel p idx).2.changes = p.2.changes := (expandStep_fields fuel p idx).2.1

theorem expandStep_revision (fuel : Nat) (p : List Key × Obj) (idx : Nat) :
    (expandStep fuel p idx).2.revision = p.2.revision := (expandStep_fields fuel p idx).2.2.1

theorem expandStep_propertyRevision (fuel : Nat) (p : List Key × Obj) (idx : Nat) :
    (expandStep fuel p idx).2.propertyRevision = p.2.propertyRevision :=
  (expandStep_fields fuel p idx).2.2.2.1

theorem expandStep_suspended (fuel : Nat) (p : List Key × Obj) (idx : Nat) :
    (expandStep fuel p idx).2.suspended = p.2.suspended :=
  (expandStep_fields fuel p idx).2.2.2.2.1

theorem expandStep_observers (fuel : Nat) (p : List Key × Obj) (idx : Nat) :
    (expandStep fuel p idx).2.observers = p.2.observers :=
  (expandStep_fields fuel p idx).2.2.2.2.2.1

theorem expandStep_dependents (fuel : Nat) (p : List Key × Obj) (idx : Nat) :
    (expandStep fuel p idx).2.dependents = p.2.dependents :=
  (expandStep_fields fuel p idx).2.2.2.2.2.2.1

theorem expandStep_cachedDependents (fuel : Nat) (p : List Key × Obj) (idx : Nat) :
    (expandStep fuel p idx).2.cachedDependents = p.2.cachedDependents :=
  (expandStep_fields fuel p idx).2.2.2.2.2.2.2.1

theorem expandStep_suppressed (fuel : Nat) (p : List Key × Obj) (idx : Nat) :
    (expandStep fuel p idx).2.suppressed = p.2.suppressed :=
  (expandStep_fields fuel p idx).2.2.2.2.2.2.2.2.1

theorem expandStep_log (fuel : Nat) (p : List Key × Obj) (idx : Nat) :
    (expandStep fuel p idx).2.log = p.2.log := (expandStep_fields fuel p idx).2.2.2.2.2.2.2.2.2.1

theorem expandStep_fnCalls (fuel : Nat) (p : List Key × Obj) (idx : Nat) :
    (expandStep fuel p idx).2.fnCalls = p.2.fnCalls :=
  (expandStep_fields fuel p idx).2.2.2.2.2.2.2.2.2.2

theorem flushIter_changes (o : Obj) (key : Option Key) : (flushIter o key).changes = [] := by
  unfold flushIter expandDependents
  cases key <;> simp [notifyKeys_changes, expandStep_changes]

theorem flushIter_changeLevel (o : Obj) (key : Option Key) :
    (flushIter o key).changeLevel = o.changeLevel := by
  unfold flushIter expandDependents
  cases key <;> simp [notifyKeys_changeLevel, expandStep_changeLevel]

theorem flushIter_revision (o : Obj) (key : Option Key) :
    (flushIter o key).revision = o.revision := by
  unfold flushIter expandDependents
  cases key <;> simp [notifyKeys_revision, expandStep_revision]

theorem flushIter_suspended (o : Obj) (key : Option Key) :
    (flushIter o key).suspended = o.suspended := by
  unfold flushIter expandDependents
  cases key <;> simp [notifyKeys_suspended, expandStep_suspended]

theorem flushIter_propertyRevision (o : Obj) (key : Option Key) :
    (flushIter o key).propertyRevision = o.propertyRevision + 1 := by
  unfold flushIter expandDependents
  cases key <;> simp [notifyKeys_propertyRevision, expandStep_propertyRevision]

theorem flushIter_dependents (o : Obj) (key : Option Key) :
    (flushIter o key).dependents = o.dependents := by
  unfold flushIter expandDependents
  cases key <;> simp [notifyKeys_dependents, expandStep_dependents]

theorem flushIter_cachedDependents (o : Obj) (key : Option Key) :
    (flushIter o key).cachedDependents = o.cachedDependents := by
  unfold flushIter expandDependents
  cases key <;> simp [notifyKeys_cachedDependents, expandStep_cachedDependents]

theorem flushIter_suppressed (o : Obj) (key : Option Key) :
    (flushIter o key).suppressed = o.suppressed := by
  unfold flushIter expandDependents
  cases key <;> simp [notifyKeys_suppressed, expandStep_suppressed]

theorem flushIter_fnCalls (o : Obj) (key : Option Key) :
    (flushIter o key).fnCalls = o.fnCalls := by
  unfold flushIter expandDependents
  cases key <;> simp [notifyKeys_fnCalls, expandStep_fnCalls]

theorem flushLoop_changeLevel (fuel : Nat) (o : Obj) (key : Option Key) :
    (flushLoop fuel o key).changeLevel = o.changeLevel := by
  induction fuel generalizing o key with
  | zero => simp [flushLoop]
  | succ n ih =>
    by_cases h : o.changes = [] ∧ key = none
    · simp [flushLoop, h]
    · simp [flushLoop, h, ih, flushIter_changeLevel]

theorem flushLoop_revision (fuel : Nat) (o : Obj) (key : Option Key) :
    (flushLoop fuel o key).revision = o.revision := by
  induction fuel generalizing o key with
  | zero => simp [flushLoop]
  | succ n ih =>
    by_cases h : o.changes = [] ∧ key = none
    · simp [flushLoop, h]
    · simp [flushLoop, h, ih, flushIter_revision]

theorem flushLoop_suspended (fuel : Nat) (o : Obj) (key : Option Key) :
    (flushLoop fuel o key).suspended = o.suspended := by
  induction fuel generalizing o key with
  | zero => simp [flushLoop]
  | succ n ih =>
    by_cases h : o.changes = [] ∧ key = none
    · simp [flushLoop, h]
    · simp [flushLoop, h, ih, flushIter_suspended]

theorem flushLoop_fnCalls (fuel : Nat) (o : Obj) (key : Option Key) :
    (flushLoop fuel o key).fnCalls = o.fnCalls := by
  induction fuel generalizing o key with
  | zero => simp [flushLoop]
  | succ n ih =>
    by_cases h : o.changes = [] ∧ key = none
    · simp [flushLoop, h]
    · simp [flushLoop, h, ih, flushIter_fnCalls]

theorem notifyPropertyObservers_changeLevel (o : Obj) (key : Option Key)
    (h : 0 ≤ o.changeLevel) :
    (notifyPropertyObservers o key).changeLevel = o.changeLevel := by
  unfold notifyPropertyObservers
  have h1 := flushLoop_changeLevel 2 { o with changeLevel := o.changeLevel + 1 } key
  simp only [h1]
  have : ¬ (o.changeLevel + 1 = 0) := by omega
  simp [this]

theorem notifyPropertyObservers_revision (o : Obj) (key : Option Key) :
    (notifyPropertyObservers o key).revision = o.revision := by
  unfold notifyPropertyObservers
  simp [flushLoop_revision]

theorem notifyPropertyObservers_fnCalls (o : Obj) (key : Option Key) :
    (notifyPropertyObservers o key).fnCalls = o.fnCalls := by
  unfold notifyPropertyObservers
  simp [flushLoop_fnCalls]

theorem propertyDidChange_revision (o : Obj) (k : Key) :
    (propertyDidChange o k).revision = o.revision + 1 := by
  unfold propertyDidChange
  cases hl : lookupAssoc o.props k with
  | none =>
    simp only [hl]
    split <;> simp [notifyPropertyObservers_revision]
  | some s =>
    cases s with
    | plain v =>
      simp only [hl]
      split <;> simp [notifyPropertyObservers_revision]
    | comp c =>
      by_cases hc : c.isCacheable <;> simp only [hl, hc, if_true, if_false, Bool.false_eq_true] <;>
        split <;> simp [notifyPropertyObservers_revision, setSlot]

theorem endPropertyChanges_changeLevel (o : Obj) (h : 0 ≤ o.changeLevel) :
    (endPropertyChanges o).changeLevel = (if o.changeLevel = 0 then 1 else o.changeLevel) - 1 := by
  unfold endPropertyChanges
  dsimp only
  by_cases h0 : o.changeLevel = 0
  · rw [if_pos h0]
    split
    · rw [notifyPropertyObservers_changeLevel _ _ (by norm_num)]
    · rfl
  · rw [if_neg h0]
    split
    · rw [notifyPropertyObservers_changeLevel _ _ (by dsimp only; omega)]
    · rfl

/-- C4: for every observable object, every call to `propertyDidChange(key)`
strictly increases the object's revision counter (`_kvo_revision`) by one —
both when the change is delivered immediately (change level zero and
observation not suspended) and when the key is only queued into the
pending-changes set. -/
theorem revision_increases_on_propertyDidChange (o : Obj) (k : Key) :
    (propertyDidChange o k).revision = o.revision + 1 :=
  propertyDidChange_revision o k

/-- C9: the change-level counter never becomes negative under any sequence
of `beginPropertyChanges`, `endPropertyChanges` and flush calls; an
`endPropertyChanges` on an object at level zero leaves the level at zero
(`(lvl || 1) - 1`); a flush (`_notifyPropertyObservers`) restores the level
it raised. -/
theorem changeLevel_never_negative :
    (∀ (o : Obj) (ops : List KvoOp), 0 ≤ o.changeLevel → 0 ≤ (applyKvoOps o ops).changeLevel)
    ∧ (∀ o : Obj, o.changeLevel = 0 → (endPropertyChanges o).changeLevel = 0)
    ∧ (∀ (o : Obj) (key : Option Key), 0 ≤ o.changeLevel →
        (notifyPropertyObservers o key).changeLevel = o.changeLevel) := by
  refine ⟨?_, ?_, ?_⟩
  · intro o ops h
    induction ops generalizing o with
    | nil => simpa [applyKvoOps] using h
    | cons op t ih =>
      cases op with
      | begin =>
        refine ih (beginPropertyChanges o) ?_
        simp only [beginPropertyChanges]
        omega
      | endp =>
        refine ih (endPropertyChanges o) ?_
        rw [endPropertyChanges_changeLevel o h]
        split <;> omega
      | flush key =>
        refine ih (notifyPropertyObservers o key) ?_
        rw [notifyPropertyObservers_changeLevel o key h]
        exact h
  · intro o h0
    rw [endPropertyChanges_changeLevel o (by omega)]
    simp [h0]
  · intro o key h
    exact notifyPropertyObservers_changeLevel o key h

theorem changeLevel_never_negative_witness :
    (0 ≤ oW.changeLevel ∧
      0 ≤ (applyKvoOps oW [KvoOp.endp, KvoOp.endp, KvoOp.begin, KvoOp.flush none,
        KvoOp.endp]).changeLevel) ∧
    (oW.changeLevel = 0 ∧ (endPropertyChanges oW).changeLevel = 0) ∧
    (0 ≤ oW.changeLevel ∧
      (notifyPropertyObservers oW (some "a")).changeLevel = oW.changeLevel) :=
  ⟨⟨by decide, changeLevel_never_negative.1 oW _ (by decide)⟩,
   ⟨by decide, changeLevel_never_negative.2.1 oW (by decide)⟩,
   ⟨by decide, changeLevel_never_negative.2.2 oW (some "a") (by decide)⟩⟩

theorem clearCompSlots_fields (o : Obj) (k : Key) :
    (clearCompSlots o k).changeLevel = o.changeLevel ∧
    (clearCompSlots o k).changes = o.changes ∧
    (clearCompSlots o k).revision = o.revision ∧
    (clearCompSlots o k).propertyRevision = o.propertyRevision ∧
    (clearCompSlots o k).suspended = o.suspended ∧
    (clearCompSlots o k).observers = o.observers ∧
    (clearCompSlots o k).dependents = o.dependents ∧
    (clearCompSlots o k).cachedDependents = o.cachedDependents ∧
    (clearCompSlots o k).suppressed = o.suppressed ∧
    (clearCompSlots o k).log = o.log ∧
    (clearCompSlots o k).fnCalls = o.fnCalls := by
  unfold clearCompSlots
  cases h : lookupAssoc o.props k with
  | none => simp
  | some s =>
    cases s with
    | plain v => simp
    | comp c => simp [setSlot]

theorem foldl_clearCompSlots_fields (ds : List Key) (o : Obj) :
    (ds.foldl clearCompSlots o).changeLevel = o.changeLevel ∧
    (ds.foldl clearCompSlots o).changes = o.changes ∧
    (ds.foldl clearCompSlots o).revision = o.revision ∧
    (ds.foldl clearCompSlots o).propertyRevision = o.propertyRevision ∧
    (ds.foldl clearCompSlots o).suspended = o.suspended ∧
    (ds.foldl clearCompSlots o).observers = o.observers ∧
    (ds.foldl clearCompSlots o).dependents = o.dependents ∧
    (ds.foldl clearCompSlots o).cachedDependents = o.cachedDependents ∧
    (ds.foldl clearCompSlots o).suppressed = o.suppressed ∧
    (ds.foldl clearCompSlots o).log = o.log ∧
    (ds.foldl clearCompSlots o).fnCalls = o.fnCalls := by
  induction ds generalizing o with
  | nil => simp
  | cons d t ih =>
    have h1 := clearCompSlots_fields o d
    have h2 := ih (clearCompSlots o d)
    simp only [List.foldl_cons]
    exact ⟨h2.1.trans h1.1, h2.2.1.trans h1.2.1, h2.2.2.1.trans h1.2.2.1,
      h2.2.2.2.1.trans h1.2.2.2.1, h2.2.2.2.2.1.trans h1.2.2.2.2.1,
      h2.2.2.2.2.2.1.trans h1.2.2.2.2.2.1, h2.2.2.2.2.2.2.1.trans h1.2.2.2.2.2.2.1,
      h2.2.2.2.2.2.2.2.1.trans h1.2.2.2.2.2.2.2.1,
      h2.2.2.2.2.2.2.2.2.1.trans h1.2.2.2.2.2.2.2.2.1,
      h2.2.2.2.2.2.2.2.2.2.1.trans h1.2.2.2.2.2.2.2.2.2.1,
      h2.2.2.2.2.2.2.2.2.2.2.trans h1.2.2.2.2.2.2.2.2.2.2⟩

theorem clearCachedDependentsOf_fields (o : Obj) (k : Key) :
    (clearCachedDependentsOf o k).changeLevel = o.changeLevel ∧
    (clearCachedDependentsOf o k).changes = o.changes ∧
    (clearCachedDependentsOf o k).revision = o.revision ∧
    (clearCachedDependentsOf o k).propertyRevision = o.propertyRevision ∧
    (clearCachedDependentsOf o k).suspended = o.suspended ∧
    (clearCachedDependentsOf o k).observers = o.observers ∧
    (clearCachedDependentsOf o k).dependents = o.dependents ∧
    (clearCachedDependentsOf o k).cachedDependents = o.cachedDependents ∧
    (clearCachedDependentsOf o k).suppressed = o.suppressed ∧
    (clearCachedDependentsOf o k).log = o.log ∧
    (clearCachedDependentsOf o k).fnCalls = o.fnCalls := by
  unfold clearCachedDependentsOf
  cases h : lookupAssoc o.cachedDependents k with
  | none => simp
  | some ds => exact foldl_clearCompSlots_fields ds.reverse o

theorem foldl_clearCompSlots_lookup_ne (ds : List Key) (o : Obj) (k : Key) (h : k ∉ ds) :
    lookupAssoc (ds.foldl clearCompSlots o).props k = lookupAssoc o.props k := by
  induction ds generalizing o with
  | nil => simp
  | cons d t ih =>
    simp only [List.mem_cons, not_or] at h
    simp only [List.foldl_cons]
    rw [ih (clearCompSlots o d) h.2]
    unfold clearCompSlots
    cases hl : lookupAssoc o.props d with
    | none => rfl
    | some s =>
      cases s with
      | plain v => rfl
      | comp c =>
        simp only [setSlot]
        exact lookupAssoc_setAssoc_ne o.props k d _ (fun he => h.1 he.symm)

theorem clearCachedDependentsOf_lookup_ne (o : Obj) (k k' : Key)
    (h : k' ∉ (lookupAssoc o.cachedDependents k).getD []) :
    lookupAssoc (clearCachedDependentsOf o k).props k' = lookupAssoc o.props k' := by
  unfold clearCachedDependentsOf
  cases hl : lookupAssoc o.cachedDependents k with
  | none => rfl
  | some ds =>
    refine foldl_clearCompSlots_lookup_ne ds.reverse o k' ?_
    rw [hl] at h
    simpa using h

theorem propertyDidChange_fnCalls (o : Obj) (k : Key) :
    (propertyDidChange o k).fnCalls = o.fnCalls := by
  unfold propertyDidChange
  cases hl : lookupAssoc o.props k with
  | none =>
    simp only [hl]
    split <;> simp [notifyPropertyObservers_fnCalls]
  | some s =>
    cases s with
    | plain v =>
      simp only [hl]
      split <;> simp [notifyPropertyObservers_fnCalls]
    | comp c =>
      by_cases hc : c.isCacheable <;> simp only [hl, hc, if_true, if_false, Bool.false_eq_true] <;>
        split <;> simp [notifyPropertyObservers_fnCalls, setSlot]

theorem get_undefined_step (o : Obj) (k : Key) (c : CompProp)
    (h : lookupAssoc o.props k = some (Slot.comp c)) (hc : c.isCacheable = true)
    (hcache : c.cache = none) (hfn : c.fn none = none) :
    (o.get k).1 = none ∧
    (o.get k).2 = { o with fnCalls := o.fnCalls ++ [(k, (none : Option Val))] } := by
  obtain ⟨fn, ca, vo, cc, ls⟩ := c
  simp only at hc hcache hfn
  subst hc hcache
  unfold Obj.get
  simp only [h, hfn, if_true]
  refine ⟨by trivial, ?_⟩
  simp only [setSlot]
  have : setAssoc o.props k (Slot.comp ⟨fn, true, vo, none, ls⟩) = o.props :=
    setAssoc_lookup_eq o.props k _ h
  simp [this]

theorem getN_eq (o : Obj) (k : Key) (c : CompProp)
    (h : lookupAssoc o.props k = some (Slot.comp c)) (hc : c.isCacheable = true)
    (hcache : c.cache = none) (hfn : c.fn none = none) :
    ∀ n : Nat,
      getN o k n = { o with fnCalls := o.fnCalls ++ List.replicate n (k, (none : Option Val)) } := by
  intro n
  induction n with
  | zero => simp [getN]
  | succ n ih =>
    show ((getN o k n).get k).2 = _
    rw [ih]
    have h' : lookupAssoc
        ({ o with fnCalls := o.fnCalls ++ List.replicate n (k, (none : Option Val)) }).props k
        = some (Slot.comp c) := h
    rw [(get_undefined_step _ k c h' hc hcache hfn).2]
    simp [List.replicate_succ']

/-- C10: a cacheable computed property whose function returns `undefined`
never has that result stored in its cache slot: after any number of `get`
calls the cache slot is still `undefined`, every `get` returns `undefined`,
and every `get` re-invokes the property function (one `fnCalls` entry per
call) even though no dependency changed in between. -/
theorem get_never_caches_undefined (o : Obj) (k : Key) (c : CompProp)
    (h : lookupAssoc o.props k = some (Slot.comp c)) (hc : c.isCacheable = true)
    (hcache : c.cache = none) (hfn : c.fn none = none) :
    ∀ n : Nat,
      cacheOf (getN o k n) k = none ∧ ((getN o k n).get k).1 = none ∧
      (getN o k n).fnCalls = o.fnCalls ++ List.replicate n (k, (none : Option Val)) := by
  intro n
  have he := getN_eq o k c h hc hcache hfn n
  refine ⟨?_, ?_, by rw [he]⟩
  · rw [he]
    simp only [cacheOf]
    have h' : lookupAssoc
        ({ o with fnCalls := o.fnCalls ++ List.replicate n (k, (none : Option Val)) }).props k
        = some (Slot.comp c) := h
    rw [h']
    exact hcache
  · rw [he]
    have h' : lookupAssoc
        ({ o with fnCalls := o.fnCalls ++ List.replicate n (k, (none : Option Val)) }).props k
        = some (Slot.comp c) := h
    exact (get_undefined_step _ k c h' hc hcache hfn).1

theorem get_never_caches_undefined_witness :
    cacheOf (getN o10w "q" 2) "q" = none ∧ ((getN o10w "q" 2).get "q").1 = none ∧
    (getN o10w "q" 2).fnCalls = o10w.fnCalls ++ List.replicate 2 ("q", (none : Option Val)) :=
  get_never_caches_undefined o10w "q" ⟨fun _ => none, true, false, none, none⟩ rfl rfl rfl rfl 2

theorem set_comp_skip (o : Obj) (k : Key) (v : Val) (c : CompProp)
    (h : lookupAssoc o.props k = some (Slot.comp c))
    (hcond : ¬(c.isVolatile ∨ c.lastSet ≠ some v)) :
    Obj.set o k v = clearCachedDependentsOf o k := by
  unfold Obj.set setBody
  simp only [h]
  rw [if_neg hcond]

theorem set_comp_invoke_fields (o : Obj) (k : Key) (v : Val) (c : CompProp)
    (h : lookupAssoc o.props k = some (Slot.comp c))
    (hcond : c.isVolatile ∨ c.lastSet ≠ some v) :
    (Obj.set o k v).fnCalls = o.fnCalls ++ [(k, some v)] ∧
    (k ∉ o.suppressed → (Obj.set o k v).revision = o.revision + 1) ∧
    (k ∈ o.suppressed →
      (Obj.set o k v).revision = o.revision ∧ (Obj.set o k v).log = o.log ∧
      (Obj.set o k v).changes = o.changes ∧
      (k ∉ (lookupAssoc o.cachedDependents k).getD [] →
        lookupAssoc (Obj.set o k v).props k
          = some (Slot.comp
              (if c.isCacheable then { c with lastSet := some v, cache := c.fn (some v) }
               else { c with lastSet := some v })))) := by
  unfold Obj.set setBody
  simp only [h]
  rw [if_pos hcond]
  by_cases hn : k ∈ o.suppressed
  · rw [if_neg (by simpa using hn)]
    refine ⟨?_, fun hc => absurd hn hc, fun _ => ⟨?_, ?_, ?_, ?_⟩⟩
    · by_cases hcc : c.isCacheable <;>
        simp [hcc, setSlot, clearCachedDependentsOf_fields]
    · by_cases hcc : c.isCacheable <;>
        simp [hcc, setSlot, clearCachedDependentsOf_fields]
    · by_cases hcc : c.isCacheable <;>
        simp [hcc, setSlot, clearCachedDependentsOf_fields]
    · by_cases hcc : c.isCacheable <;>
        simp [hcc, setSlot, clearCachedDependentsOf_fields]
    · intro hnotdep
      by_cases hcc : c.isCacheable
      · rw [if_pos hcc]
        have hcd : (setSlot { setSlot o k (Slot.comp { c with lastSet := some v }) with
            fnCalls := (setSlot o k (Slot.comp { c with lastSet := some v })).fnCalls
              ++ [(k, some v)] } k
            (Slot.comp { c with lastSet := some v, cache := c.fn (some v) })).cachedDependents
            = o.cachedDependents := by simp [setSlot]
        rw [clearCachedDependentsOf_lookup_ne _ k k (by rw [hcd]; exact hnotdep)]
        simp only [setSlot]
        rw [lookupAssoc_setAssoc_self]
        simp [hcc]
      · rw [if_neg hcc]
        have hcd : ({ setSlot o k (Slot.comp { c with lastSet := some v }) with
            fnCalls := (setSlot o k (Slot.comp { c with lastSet := some v })).fnCalls
              ++ [(k, some v)] }).cachedDependents = o.cachedDependents := by simp [setSlot]
        rw [clearCachedDependentsOf_lookup_ne _ k k (by rw [hcd]; exact hnotdep)]
        simp only [setSlot]
        rw [lookupAssoc_setAssoc_self]
        simp [hcc]
  · rw [if_pos (by simpa using hn)]
    refine ⟨?_, fun _ => ?_, fun hc => absurd hc hn⟩
    · by_cases hcc : c.isCacheable <;>
        simp [hcc, setSlot, clearCachedDependentsOf_fields, propertyDidChange_fnCalls]
    · by_cases hcc : c.isCacheable <;>
        simp [hcc, setSlot, clearCachedDependentsOf_fields, propertyDidChange_revision]

/-- C7 (amended): `set(key, value)` on a computed-property slot re-invokes
the property function iff the descriptor is volatile or the value differs
(strict inequality) from the content of the last-set-value slot; when it
skips, no invocation and no notification occur; when it invokes with
notification suppressed it records the value in the last-set-value slot and
updates the cache slot; when it invokes with automatic notification enabled
the invocation is bracketed by `propertyWillChange`/`propertyDidChange`
(the revision counter advances) — and `propertyDidChange` then clears the
last-set-value slot of a cacheable descriptor, so consecutive identical
sets still re-invoke. -/
theorem set_computed_dedup (o : Obj) (k : Key) (v : Val) (c : CompProp)
    (h : lookupAssoc o.props k = some (Slot.comp c)) :
    ((Obj.set o k v).fnCalls
        = if c.isVolatile ∨ c.lastSet ≠ some v then o.fnCalls ++ [(k, some v)]
          else o.fnCalls) ∧
    (¬(c.isVolatile ∨ c.lastSet ≠ some v) →
      (Obj.set o k v).log = o.log ∧ (Obj.set o k v).revision = o.revision ∧
      (Obj.set o k v).changes = o.changes) ∧
    ((c.isVolatile ∨ c.lastSet ≠ some v) → k ∉ o.suppressed →
      (Obj.set o k v).revision = o.revision + 1) ∧
    ((c.isVolatile ∨ c.lastSet ≠ some v) → k ∈ o.suppressed →
      (Obj.set o k v).revision = o.revision ∧ (Obj.set o k v).log = o.log ∧
      (Obj.set o k v).changes = o.changes ∧
      (k ∉ (lookupAssoc o.cachedDependents k).getD [] →
        lastSetOf (Obj.set o k v) k = some v ∧
        (c.isCacheable = true → cacheOf (Obj.set o k v) k = c.fn (some v)))) := by
  by_cases hcond : c.isVolatile ∨ c.lastSet ≠ some v
  · have hf := set_comp_invoke_fields o k v c h hcond
    refine ⟨by rw [if_pos hcond]; exact hf.1, fun hc => absurd hcond hc,
      fun _ => hf.2.1, fun _ hn => ?_⟩
    obtain ⟨h1, h2, h3, h4⟩ := hf.2.2 hn
    refine ⟨h1, h2, h3, fun hnd => ?_⟩
    have h5 := h4 hnd
    by_cases hcc : c.isCacheable
    · rw [if_pos hcc] at h5
      constructor
      · simp [lastSetOf, h5]
      · intro _
        simp [cacheOf, h5]
    · rw [if_neg hcc] at h5
      constructor
      · simp [lastSetOf, h5]
      · intro hx
        exact absurd hx hcc
  · have he := set_comp_skip o k v c h hcond
    have hf := clearCachedDependentsOf_fields o k
    refine ⟨?_, fun _ => ⟨?_, ?_, ?_⟩, fun hc => absurd hc hcond, fun hc => absurd hc hcond⟩
    · rw [if_neg hcond, he]
      exact hf.2.2.2.2.2.2.2.2.2.2
    · rw [he]
      exact hf.2.2.2.2.2.2.2.2.2.1
    · rw [he]
      exact hf.2.2.1
    · rw [he]
      exact hf.2.1

/-- C7 counterexample: the first `set("k", 5)` invokes the property function
and leaves the last-set-value slot `undefined` (cleared by
`propertyDidChange`), so a second `set("k", 5)` with the identical value
invokes the function again — the claim's "re-invokes iff volatile or the
value differs from the last value previously passed to set" predicts a
single invocation. -/
theorem set_dedup_counterexample :
    (Obj.set o7x "k" (Val.num 5)).fnCalls = [("k", some (Val.num 5))] ∧
    lastSetOf (Obj.set o7x "k" (Val.num 5)) "k" = none ∧
    (Obj.set (Obj.set o7x "k" (Val.num 5)) "k" (Val.num 5)).fnCalls
      = [("k", some (Val.num 5)), ("k", some (Val.num 5))] := by
  refine ⟨?_, ?_, ?_⟩ <;> rfl

theorem set_computed_dedup_witness :
    ((Obj.set o7x "k" (Val.num 5)).fnCalls
        = if c7d.isVolatile ∨ c7d.lastSet ≠ some (Val.num 5) then
            o7x.fnCalls ++ [("k", some (Val.num 5))]
          else o7x.fnCalls) ∧
    (¬(c7d.isVolatile ∨ c7d.lastSet ≠ some (Val.num 5)) →
      (Obj.set o7x "k" (Val.num 5)).log = o7x.log ∧
      (Obj.set o7x "k" (Val.num 5)).revision = o7x.revision ∧
      (Obj.set o7x "k" (Val.num 5)).changes = o7x.changes) ∧
    ((c7d.isVolatile ∨ c7d.lastSet ≠ some (Val.num 5)) → "k" ∉ o7x.suppressed →
      (Obj.set o7x "k" (Val.num 5)).revision = o7x.revision + 1) ∧
    ((c7d.isVolatile ∨ c7d.lastSet ≠ some (Val.num 5)) → "k" ∈ o7x.suppressed →
      (Obj.set o7x "k" (Val.num 5)).revision = o7x.revision ∧
      (Obj.set o7x "k" (Val.num 5)).log = o7x.log ∧
      (Obj.set o7x "k" (Val.num 5)).changes = o7x.changes ∧
      ("k" ∉ (lookupAssoc o7x.cachedDependents "k").getD [] →
        lastSetOf (Obj.set o7x "k" (Val.num 5)) "k" = some (Val.num 5) ∧
        (c7d.isCacheable = true →
          cacheOf (Obj.set o7x "k" (Val.num 5)) "k" = c7d.fn (some (Val.num 5))))) :=
  set_computed_dedup o7x "k" (Val.num 5) c7d rfl

theorem descrShape_of_lookup (o : Obj) (P : Key) (c : CompProp)
    (h : lookupAssoc o.props P = some (Slot.comp c)) : descrShape o P c := by
  refine ⟨c.cache, c.lastSet, ?_⟩
  obtain ⟨fn, ca, vo, cc, ls⟩ := c
  exact h

theorem descrShape_setSlot_ne (o : Obj) (P : Key) (c : CompProp) (d : Key) (s : Slot)
    (hne : d ≠ P) (h : descrShape o P c) : descrShape (setSlot o d s) P c := by
  obtain ⟨ca, ls, hl⟩ := h
  exact ⟨ca, ls, by rw [setSlot, lookupAssoc_setAssoc_ne _ _ _ _ hne]; exact hl⟩

theorem descrShape_clearDependentCache (o : Obj) (d P : Key) (c : CompProp)
    (h : descrShape o P c) : descrShape (clearDependentCache o d) P c := by
  unfold clearDependentCache
  cases hl : lookupAssoc o.props d with
  | none => exact h
  | some s =>
    cases s with
    | plain w => exact h
    | comp c' =>
      dsimp only
      by_cases hcc : c'.isCacheable
      · rw [if_pos hcc]
        by_cases hd : d = P
        · subst hd
          obtain ⟨ca, ls, hP⟩ := h
          rw [hP] at hl
          obtain rfl : c' = ⟨c.fn, c.isCacheable, c.isVolatile, ca, ls⟩ :=
            (Slot.comp.injEq _ _).mp (Option.some.injEq _ _ |>.mp hl) |>.symm ▸ rfl
          exact ⟨none, ls, by rw [setSlot, lookupAssoc_setAssoc_self]⟩
        · exact descrShape_setSlot_ne o P c d _ hd h
      · rw [if_neg hcc]
        exact h

theorem descrShape_clearCompSlots (o : Obj) (d P : Key) (c : CompProp)
    (h : descrShape o P c) : descrShape (clearCompSlots o d) P c := by
  unfold clearCompSlots
  cases hl : lookupAssoc o.props d with
  | none => exact h
  | some s =>
    cases s with
    | plain w => exact h
    | comp c' =>
      dsimp only
      by_cases hd : d = P
      · subst hd
        obtain ⟨ca, ls, hP⟩ := h
        rw [hP] at hl
        obtain rfl : c' = ⟨c.fn, c.isCacheable, c.isVolatile, ca, ls⟩ :=
          (Slot.comp.injEq _ _).mp (Option.some.injEq _ _ |>.mp hl) |>.symm ▸ rfl
        exact ⟨none, none, by rw [setSlot, lookupAssoc_setAssoc_self]⟩
      · exact descrShape_setSlot_ne o P c d _ hd h

theorem descrShape_foldl_clearCompSlots (ds : List Key) (o : Obj) (P : Key) (c : CompProp)
    (h : descrShape o P c) : descrShape (ds.foldl clearCompSlots o) P c := by
  induction ds generalizing o with
  | nil => exact h
  | cons d t ih => exact ih (clearCompSlots o d) (descrShape_clearCompSlots o d P c h)

theorem descrShape_clearCachedDependentsOf (o : Obj) (k P : Key) (c : CompProp)
    (h : descrShape o P c) : descrShape (clearCachedDependentsOf o k) P c := by
  unfold clearCachedDependentsOf
  cases lookupAssoc o.cachedDependents k with
  | none => exact h
  | some ds => exact descrShape_foldl_clearCompSlots ds.reverse o P c h

theorem descrShape_foldl_expandOne (ks : List Key) (p : List Key × Obj) (P : Key) (c : CompProp)
    (h : descrShape p.2 P c) : descrShape (ks.foldl expandOne p).2 P c := by
  induction ks generalizing p with
  | nil => exact h
  | cons a t ih =>
    simp only [List.foldl_cons]
    exact ih (expandOne p a) (descrShape_clearDependentCache p.2 a P c h)

theorem descrShape_expandStep (fuel : Nat) (p : List Key × Obj) (idx : Nat) (P : Key)
    (c : CompProp) (h : descrShape p.2 P c) : descrShape (expandStep fuel p idx).2 P c := by
  induction fuel generalizing p idx with
  | zero => simpa [expandStep] using h
  | succ n ih =>
    by_cases hl : idx < p.1.length
    · simp only [expandStep, dif_pos hl]
      exact ih _ _ (descrShape_foldl_expandOne _ p P c h)
    · simpa [expandStep, hl] using h

theorem descrShape_of_props_eq (o o' : Obj) (P : Key) (c : CompProp)
    (hp : o'.props = o.props) (h : descrShape o P c) : descrShape o' P c := by
  obtain ⟨ca, ls, hl⟩ := h
  exact ⟨ca, ls, by rw [hp]; exact hl⟩

theorem descrShape_flushIter (o : Obj) (key : Option Key) (P : Key) (c : CompProp)
    (h : descrShape o P c) : descrShape (flushIter o key) P c := by
  unfold flushIter expandDependents
  cases key <;>
  · refine descrShape_of_props_eq _ _ _ _ (notifyKeys_props _ _ _) ?_
    exact descrShape_expandStep _ _ _ P c h

theorem descrShape_flushLoop (fuel : Nat) (o : Obj) (key : Option Key) (P : Key) (c : CompProp)
    (h : descrShape o P c) : descrShape (flushLoop fuel o key) P c := by
  induction fuel generalizing o key with
  | zero => simpa [flushLoop] using h
  | succ n ih =>
    by_cases hc : o.changes = [] ∧ key = none
    · simpa [flushLoop, hc] using h
    · simp only [flushLoop, if_neg hc]
      exact ih _ _ (descrShape_flushIter o key P c h)

theorem descrShape_notifyPropertyObservers (o : Obj) (key : Option Key) (P : Key) (c : CompProp)
    (h : descrShape o P c) : descrShape (notifyPropertyObservers o key) P c := by
  unfold notifyPropertyObservers
  refine descrShape_of_props_eq _ _ _ _ rfl ?_
  exact descrShape_flushLoop 2 _ key P c (descrShape_of_props_eq _ _ _ _ rfl h)

theorem descrShape_propertyDidChange (o : Obj) (k P : Key) (c : CompProp)
    (h : descrShape o P c) : descrShape (propertyDidChange o k) P c := by
  unfold propertyDidChange
  have hbase : ∀ o2 : Obj, descrShape o2 P c →
      descrShape (if 0 < o.changeLevel ∨ o.suspended then { o2 with changes := addSet o2.changes k }
        else notifyPropertyObservers o2 (some k)) P c := by
    intro o2 h2
    split
    · exact descrShape_of_props_eq _ _ _ _ rfl h2
    · exact descrShape_notifyPropertyObservers o2 (some k) P c h2
  cases hl : lookupAssoc o.props k with
  | none =>
    simp only [hl]
    exact hbase _ (descrShape_of_props_eq _ _ _ _ rfl h)
  | some s =>
    cases s with
    | plain w =>
      simp only [hl]
      exact hbase _ (descrShape_of_props_eq _ _ _ _ rfl h)
    | comp c' =>
      simp only [hl]
      by_cases hcc : c'.isCacheable
      · rw [if_pos hcc]
        refine hbase _ ?_
        by_cases hd : k = P
        · subst hd
          obtain ⟨ca, ls, hP⟩ := h
          rw [hP] at hl
          obtain rfl : c' = ⟨c.fn, c.isCacheable, c.isVolatile, ca, ls⟩ :=
            (Slot.comp.injEq _ _).mp (Option.some.injEq _ _ |>.mp hl) |>.symm ▸ rfl
          exact ⟨none, none, by rw [setSlot, lookupAssoc_setAssoc_self]⟩
        · refine descrShape_setSlot_ne _ P c k _ hd (descrShape_of_props_eq _ _ _ _ rfl h)
      · rw [if_neg hcc]
        exact hbase _ (descrShape_of_props_eq _ _ _ _ rfl h)

theorem propertyDidChange_cachedDependents (o : Obj) (k : Key) :
    (propertyDidChange o k).cachedDependents = o.cachedDependents := by
  unfold propertyDidChange
  have hflush : ∀ o2 : Obj, (notifyPropertyObservers o2 (some k)).cachedDependents
      = o2.cachedDependents := by
    intro o2
    unfold notifyPropertyObservers
    have h1 : ∀ (fuel : Nat) (ob : Obj) (key : Option Key),
        (flushLoop fuel ob key).cachedDependents = ob.cachedDependents := by
      intro fuel
      induction fuel with
      | zero => intro ob key; simp [flushLoop]
      | succ n ih =>
        intro ob key
        by_cases h : ob.changes = [] ∧ key = none
        · simp [flushLoop, h]
        · simp [flushLoop, h, ih, flushIter_cachedDependents]
    simp [h1]
  cases hl : lookupAssoc o.props k with
  | none =>
    simp only [hl]
    split <;> simp [hflush]
  | some s =>
    cases s with
    | plain w =>
      simp only [hl]
      split <;> simp [hflush]
    | comp c =>
      by_cases hcc : c.isCacheable <;> simp only [hl, hcc, if_true, if_false, Bool.false_eq_true] <;>
        split <;> simp [hflush, setSlot]

theorem setBody_cachedDependents (o : Obj) (k : Key) (v : Val) :
    (setBody o k v).cachedDependents = o.cachedDependents := by
  unfold setBody
  cases hl : lookupAssoc o.props k with
  | none =>
    simp only [hl]
    split <;> simp [propertyDidChange_cachedDependents, setSlot]
  | some s =>
    cases s with
    | plain w =>
      simp only [hl]
      split
      · split <;> simp [propertyDidChange_cachedDependents, setSlot]
      · rfl
    | comp c =>
      simp only [hl]
      split
      · split <;> split <;> simp [propertyDidChange_cachedDependents, setSlot]
      · rfl

theorem descrShape_setBody (o : Obj) (k P : Key) (v : Val) (c : CompProp)
    (h : descrShape o P c) : descrShape (setBody o k v) P c := by
  unfold setBody
  cases hl : lookupAssoc o.props k with
  | none =>
    simp only [hl]
    have hne : k ≠ P := by
      intro he
      subst he
      obtain ⟨ca, ls, hP⟩ := h
      rw [hP] at hl
      exact Option.noConfusion hl
    split
    · exact descrShape_propertyDidChange _ k P c (descrShape_setSlot_ne o P c k _ hne h)
    · exact descrShape_setSlot_ne o P c k _ hne h
  | some s =>
    cases s with
    | plain w =>
      simp only [hl]
      have hne : k ≠ P := by
        intro he
        subst he
        obtain ⟨ca, ls, hP⟩ := h
        rw [hP] at hl
        exact Slot.noConfusion (Option.some.injEq _ _ |>.mp hl)
      split
      · split
        · exact descrShape_propertyDidChange _ k P c (descrShape_setSlot_ne o P c k _ hne h)
        · exact descrShape_setSlot_ne o P c k _ hne h
      · exact h
    | comp c' =>
      simp only [hl]
      split
      · have hoc : ∀ oc : Obj, descrShape oc P c →
            descrShape (if k ∉ o.suppressed then propertyDidChange oc k else oc) P c := by
          intro oc h2
          split
          · exact descrShape_propertyDidChange oc k P c h2
          · exact h2
        by_cases hd : k = P
        · subst hd
          obtain ⟨ca, ls, hP⟩ := h
          rw [hP] at hl
          obtain rfl : c' = ⟨c.fn, c.isCacheable, c.isVolatile, ca, ls⟩ :=
            (Slot.comp.injEq _ _).mp (Option.some.injEq _ _ |>.mp hl) |>.symm ▸ rfl
          refine hoc _ ?_
          split
          · exact ⟨_, _, by
              simp only [setSlot]
              rw [lookupAssoc_setAssoc_self]⟩
          · exact ⟨ca, some v, by
              simp only [setSlot]
              rw [lookupAssoc_setAssoc_self]⟩
        · refine hoc _ ?_
          have h1 := descrShape_setSlot_ne o P c k (Slot.comp { c' with lastSet := some v }) hd h
          split
          · exact descrShape_setSlot_ne _ P c k _ hd
              (descrShape_of_props_eq _ _ P c (by simp [setSlot]) h1)
          · exact descrShape_of_props_eq _ _ P c (by simp [setSlot]) h1
      · exact h

theorem foldl_clearCompSlots_keeps_cleared (l : List Key) (o : Obj) (P : Key) (c : CompProp)
    (h : lookupAssoc o.props P
      = some (Slot.comp ⟨c.fn, c.isCacheable, c.isVolatile, none, none⟩)) :
    lookupAssoc (l.foldl clearCompSlots o).props P
      = some (Slot.comp ⟨c.fn, c.isCacheable, c.isVolatile, none, none⟩) := by
  induction l generalizing o with
  | nil => exact h
  | cons d t ih =>
    simp only [List.foldl_cons]
    refine ih (clearCompSlots o d) ?_
    unfold clearCompSlots
    by_cases hd : d = P
    · subst hd
      rw [h]
      simp only [setSlot]
      rw [lookupAssoc_setAssoc_self]
    · cases hl : lookupAssoc o.props d with
      | none => exact h
      | some s =>
        cases s with
        | plain w => exact h
        | comp c' =>
          dsimp only
          rw [setSlot]
          rw [lookupAssoc_setAssoc_ne _ _ _ _ hd]
          exact h

theorem foldl_clearCompSlots_clears (l : List Key) (o : Obj) (P : Key) (c : CompProp)
    (hmem : P ∈ l) (h : descrShape o P c) :
    lookupAssoc (l.foldl clearCompSlots o).props P
      = some (Slot.comp ⟨c.fn, c.isCacheable, c.isVolatile, none, none⟩) := by
  induction l generalizing o with
  | nil => exact absurd hmem (List.not_mem_nil P)
  | cons d t ih =>
    simp only [List.foldl_cons]
    by_cases hPt : P ∈ t
    · exact ih (clearCompSlots o d) hPt (descrShape_clearCompSlots o d P c h)
    · have hPd : P = d := by
        rcases List.mem_cons.mp hmem with h1 | h1
        · exact h1
        · exact absurd h1 hPt
      subst hPd
      refine foldl_clearCompSlots_keeps_cleared t _ P c ?_
      obtain ⟨ca, ls, hP⟩ := h
      unfold clearCompSlots
      rw [hP]
      simp only [setSlot]
      rw [lookupAssoc_setAssoc_self]

theorem clearCachedDependentsOf_clears (o : Obj) (B P : Key) (c : CompProp)
    (hdep : P ∈ (lookupAssoc o.cachedDependents B).getD []) (h : descrShape o P c) :
    lookupAssoc (clearCachedDependentsOf o B).props P
      = some (Slot.comp ⟨c.fn, c.isCacheable, c.isVolatile, none, none⟩) := by
  unfold clearCachedDependentsOf
  cases hl : lookupAssoc o.cachedDependents B with
  | none =>
    rw [hl] at hdep
    exact absurd hdep (List.not_mem_nil P)
  | some ds =>
    rw [hl] at hdep
    refine foldl_clearCompSlots_clears ds.reverse o P c ?_ h
    simpa using hdep

theorem set_clears_cached_dependent (o : Obj) (B P : Key) (v : Val) (c : CompProp)
    (h : descrShape o P c) (hdep : P ∈ (lookupAssoc o.cachedDependents B).getD []) :
    lookupAssoc (Obj.set o B v).props P
      = some (Slot.comp ⟨c.fn, c.isCacheable, c.isVolatile, none, none⟩) := by
  unfold Obj.set
  refine clearCachedDependentsOf_clears _ B P c ?_ (descrShape_setBody o B P v c h)
  rw [setBody_cachedDependents]
  exact hdep

theorem get_comp_cached (o : Obj) (k : Key) (c : CompProp) (w : Val)
    (h : lookupAssoc o.props k = some (Slot.comp c)) (hc : c.isCacheable = true)
    (hw : c.cache = some w) : o.get k = (some w, o) := by
  unfold Obj.get
  rw [h]
  simp [hc, hw]

theorem get_comp_uncached (o : Obj) (k : Key) (c : CompProp)
    (h : lookupAssoc o.props k = some (Slot.comp c)) (hc : c.isCacheable = true)
    (hnc : c.cache = none) :
    (o.get k).1 = c.fn none ∧ (o.get k).2.fnCalls = o.fnCalls ++ [(k, none)] ∧
    lookupAssoc (o.get k).2.props k = some (Slot.comp { c with cache := c.fn none }) := by
  unfold Obj.get
  rw [h]
  simp only [hc, if_true, hnc]
  refine ⟨by trivial, by simp [setSlot], ?_⟩
  simp only [setSlot]
  rw [lookupAssoc_setAssoc_self]

/-- C2 (amended): for a cacheable computed property `P` registered as a
cache-eligible dependent of base key `B`: immediately after `set(B, v)` both
`P`'s cache slot and last-set-value slot are `undefined`, so the next
`get(P)` re-invokes `P`'s function; and — provided that invocation returned
a defined value — every subsequent `get(P)` returns the identical cached
value without re-invoking the function (the state does not change at all)
until `B` is set again.  (A function returning `undefined` is never cached;
see the C10 theorem.) -/
theorem cacheable_dependent_recompute (o : Obj) (B P : Key) (v : Val) (c : CompProp)
    (hP : lookupAssoc o.props P = some (Slot.comp c)) (hc : c.isCacheable = true)
    (hdep : P ∈ (lookupAssoc o.cachedDependents B).getD []) :
    cacheOf (Obj.set o B v) P = none ∧ lastSetOf (Obj.set o B v) P = none ∧
    (((Obj.set o B v).get P).1 = c.fn none ∧
      ((Obj.set o B v).get P).2.fnCalls = (Obj.set o B v).fnCalls ++ [(P, none)]) ∧
    (∀ w, c.fn none = some w →
      ∀ n, getN ((Obj.set o B v).get P).2 P n = ((Obj.set o B v).get P).2 ∧
        ((getN ((Obj.set o B v).get P).2 P n).get P).1 = some w) := by
  have hsh := descrShape_of_lookup o P c hP
  have hcl := set_clears_cached_dependent o B P v c hsh hdep
  have hget := get_comp_uncached (Obj.set o B v) P
    ⟨c.fn, c.isCacheable, c.isVolatile, none, none⟩ hcl hc rfl
  refine ⟨by simp [cacheOf, hcl], by simp [lastSetOf, hcl], ⟨hget.1, hget.2.1⟩, ?_⟩
  intro w hw
  have hcached : lookupAssoc ((Obj.set o B v).get P).2.props P
      = some (Slot.comp ⟨c.fn, c.isCacheable, c.isVolatile, some w, none⟩) := by
    have h3 := hget.2.2
    simp only at h3
    rw [hw] at h3
    exact h3
  have hfix : ((Obj.set o B v).get P).2.get P = (some w, ((Obj.set o B v).get P).2) :=
    get_comp_cached _ P ⟨c.fn, c.isCacheable, c.isVolatile, some w, none⟩ w hcached hc rfl
  intro n
  induction n with
  | zero => exact ⟨rfl, by rw [getN, hfix]⟩
  | succ n ih =>
    have h1 : getN ((Obj.set o B v).get P).2 P (n + 1) = ((Obj.set o B v).get P).2 := by
      show ((getN ((Obj.set o B v).get P).2 P n).get P).2 = _
      rw [ih.1, hfix]
    exact ⟨h1, by rw [h1, hfix]⟩

/-- C2 counterexample: with `p` a cacheable computed property registered
(via `registerDependentKey`) as dependent on `b` and whose function returns
`undefined`, after `set("b", 1)` the first `get("p")` re-invokes the
function but caches nothing, so the second `get("p")` re-invokes it again —
the claim's "every subsequent get(P) returns the identical cached value
(without re-invoking the function)" fails at this input. -/
theorem cacheable_dependent_counterexample :
    (((Obj.set o2x "b" (Val.num 1)).get "p").1 = (none : Option Val)) ∧
    ((((Obj.set o2x "b" (Val.num 1)).get "p").2.get "p").2.fnCalls
      = [("p", (none : Option Val)), ("p", (none : Option Val))]) := by
  refine ⟨?_, ?_⟩ <;> rfl

theorem cacheable_dependent_recompute_witness :
    cacheOf (Obj.set o2w "b" (Val.num 1)) "p" = none ∧
    lastSetOf (Obj.set o2w "b" (Val.num 1)) "p" = none ∧
    (((Obj.set o2w "b" (Val.num 1)).get "p").1 = c2w.fn none ∧
      ((Obj.set o2w "b" (Val.num 1)).get "p").2.fnCalls
        = (Obj.set o2w "b" (Val.num 1)).fnCalls ++ [("p", none)]) ∧
    (∀ w, c2w.fn none = some w →
      ∀ n, getN ((Obj.set o2w "b" (Val.num 1)).get "p").2 "p" n
          = ((Obj.set o2w "b" (Val.num 1)).get "p").2 ∧
        ((getN ((Obj.set o2w "b" (Val.num 1)).get "p").2 "p" n).get "p").1 = some w) :=
  cacheable_dependent_recompute o2w "b" "p" (Val.num 1) c2w rfl rfl (by decide)

theorem stampMembers_fresh (k : Key) (rev : Nat) (regs : List Reg)
    (h : ∀ r ∈ regs, r.rev ≠ rev) :
    stampMembers k rev regs
      = (regs.map (fun r => { r with rev := rev }), regs.map (mkEntry k rev)) := by
  induction regs with
  | nil => rfl
  | cons a t ih =>
    have ha : a.rev ≠ rev := h a (List.mem_cons_self a t)
    have ht : ∀ r ∈ t, r.rev ≠ rev := fun r hr => h r (List.mem_cons_of_mem a hr)
    simp only [stampMembers, ih ht, if_neg ha, List.map_cons]

theorem stampMembers_keys (k : Key) (rev : Nat) (regs : List Reg) :
    ∀ e ∈ (stampMembers k rev regs).2, e.key = k := by
  induction regs with
  | nil => intro e he; cases he
  | cons a t ih =>
    intro e he
    simp only [stampMembers] at he
    by_cases ha : a.rev = rev
    · rw [if_pos ha] at he
      exact ih e he
    · rw [if_neg ha] at he
      rcases List.mem_cons.mp he with h1 | h1
      · rw [h1]; rfl
      · exact ih e h1

theorem observersFor_lookup (o : Obj) (k : Key) (h : observersFor o k ≠ []) :
    lookupAssoc o.observers k = some (observersFor o k) := by
  unfold observersFor at h ⊢
  cases hl : lookupAssoc o.observers k with
  | none => rw [hl] at h; exact absurd rfl h
  | some regs => simp

theorem notifyOneKey_log_self (o : Obj) (rev : Nat) (k : Key) (regs : List Reg)
    (hk : lookupAssoc o.observers k = some regs)
    (hfresh : ∀ r ∈ regs, r.rev ≠ rev)
    (hstar : observersFor o "*" = []) :
    (notifyOneKey o rev k).log = o.log ++ regs.map (mkEntry k rev) := by
  unfold notifyOneKey
  simp only [hk, stampMembers_fresh k rev regs hfresh]
  by_cases hks : k = "*"
  · simp only [if_pos hks]
  · simp only [if_neg hks]
    have hlook := lookupAssoc_setAssoc_ne o.observers "*" k
      (regs.map fun r => { r with rev := rev }) hks
    unfold observersFor at hstar
    simp only [hlook]
    cases hl : lookupAssoc o.observers "*" with
    | none => simp
    | some s =>
      rw [hl] at hstar
      simp only [Option.getD_some] at hstar
      simp [hstar]

theorem notifyOneKey_log_ext (o : Obj) (rev : Nat) (k : Key) :
    ∃ ext, (notifyOneKey o rev k).log = o.log ++ ext ∧ ∀ e ∈ ext, e.key = k := by
  unfold notifyOneKey
  cases hl : lookupAssoc o.observers k with
  | none =>
    by_cases hks : k = "*"
    · exact ⟨[], by simp [if_pos hks], by intro e he; cases he⟩
    · refine ⟨((lookupAssoc o.observers "*").getD []).map (mkEntry k rev), ?_, ?_⟩
      · simp [if_neg hks]
      · intro e he
        obtain ⟨r, _, hr⟩ := List.mem_map.mp he
        rw [← hr]; rfl
  | some regs =>
    by_cases hks : k = "*"
    · refine ⟨(stampMembers k rev regs).2, by simp [if_pos hks], stampMembers_keys k rev regs⟩
    · refine ⟨(stampMembers k rev regs).2
        ++ ((lookupAssoc (setAssoc o.observers k (stampMembers k rev regs).1) "*").getD []).map
          (mkEntry k rev), ?_, ?_⟩
      · simp [if_neg hks]
      · intro e he
        rcases List.mem_append.mp he with h1 | h1
        · exact stampMembers_keys k rev regs e h1
        · obtain ⟨r, _, hr⟩ := List.mem_map.mp h1
          rw [← hr]; rfl

theorem notifyOneKey_observers_ne (o : Obj) (rev : Nat) (k k' : Key) (h : k' ≠ k) :
    observersFor (notifyOneKey o rev k) k' = observersFor o k' := by
  unfold notifyOneKey observersFor
  cases hl : lookupAssoc o.observers k with
  | none => by_cases hks : k = "*" <;> simp [hks]
  | some regs =>
    by_cases hks : k = "*"
    · subst hks
      simp [lookupAssoc_setAssoc_ne o.observers k' "*" (stampMembers "*" rev regs).1
        (fun he => h he.symm)]
    · simp [hks, lookupAssoc_setAssoc_ne o.observers k' k (stampMembers k rev regs).1
        (fun he => h he.symm)]

theorem notifyOneKey_star (o : Obj) (rev : Nat) (k : Key)
    (hstar : observersFor o "*" = []) : observersFor (notifyOneKey o rev k) "*" = [] := by
  by_cases hks : k = "*"
  · subst hks
    unfold notifyOneKey observersFor
    cases hl : lookupAssoc o.observers "*" with
    | none => simp [hl]
    | some regs =>
      unfold observersFor at hstar
      rw [hl] at hstar
      simp only [Option.getD_some] at hstar
      subst hstar
      simp [lookupAssoc_setAssoc_self, stampMembers]
  · exact (notifyOneKey_observers_ne o rev k "*" (fun he => hks he.symm)).trans hstar

theorem countInv_append (l1 l2 : List LogEntry) (t : Option Nat) (m : Nat) (k : Key) :
    countInv (l1 ++ l2) t m k = countInv l1 t m k + countInv l2 t m k :=
  List.countP_append _ l1 l2

theorem countInv_zero_of_key_ne (l : List LogEntry) (t : Option Nat) (m : Nat) (k : Key)
    (h : ∀ e ∈ l, e.key ≠ k) : countInv l t m k = 0 := by
  unfold countInv
  rw [List.countP_eq_zero]
  intro e he
  simp only [decide_eq_true_eq, not_and]
  intro _ _
  exact h e he

theorem countInv_zero_of_no_pair (regs : List Reg) (k : Key) (rev : Nat) (t : Option Nat)
    (m : Nat) (h : ∀ b ∈ regs, ¬(b.target = t ∧ b.method = m)) :
    countInv (regs.map (mkEntry k rev)) t m k = 0 := by
  unfold countInv
  rw [List.countP_eq_zero]
  intro e he
  obtain ⟨b, hb, hbe⟩ := List.mem_map.mp he
  simp only [decide_eq_true_eq, not_and]
  intro h1 h2 _
  rw [← hbe] at h1 h2
  exact h b hb ⟨h1, h2⟩

theorem countInv_map_mkEntry (regs : List Reg) (k : Key) (rev : Nat) (r : Reg)
    (hr : r ∈ regs)
    (hpw : regs.Pairwise (fun a b => ¬(a.target = b.target ∧ a.method = b.method))) :
    countInv (regs.map (mkEntry k rev)) r.target r.method k = 1 := by
  induction regs with
  | nil => cases hr
  | cons a t ih =>
    rw [List.map_cons]
    unfold countInv
    rw [List.countP_cons]
    by_cases ha : a.target = r.target ∧ a.method = r.method
    · have hz : countInv (t.map (mkEntry k rev)) r.target r.method k = 0 := by
        refine countInv_zero_of_no_pair t k rev r.target r.method ?_
        intro b hb hcon
        exact (List.pairwise_cons.mp hpw).1 b hb
          ⟨by rw [ha.1, hcon.1], by rw [ha.2, hcon.2]⟩
      unfold countInv at hz
      rw [hz]
      simp [mkEntry, ha.1, ha.2]
    · have hrt : r ∈ t := by
        rcases List.mem_cons.mp hr with h1 | h1
        · exact absurd ⟨by rw [h1], by rw [h1]⟩ ha
        · exact h1
      have h1 := ih hrt (List.pairwise_cons.mp hpw).2
      unfold countInv at h1
      rw [h1]
      have h2 : ¬(a.target = r.target ∧ a.method = r.method ∧ k = k) := by
        intro hcon
        exact ha ⟨hcon.1, hcon.2.1⟩
      simp [mkEntry, h2]
      intro h3 h4
      exact ha ⟨h3, h4⟩

theorem notifyKeys_log_keys (rev : Nat) (ks : List Key) (o : Obj) (k : Key) (hks : k ∉ ks) :
    ∃ ext, (notifyKeys o rev ks).log = o.log ++ ext ∧ ∀ e ∈ ext, e.key ≠ k := by
  induction ks generalizing o with
  | nil => exact ⟨[], by simp [notifyKeys], by intro e he; cases he⟩
  | cons k' t ih =>
    simp only [List.mem_cons, not_or] at hks
    obtain ⟨ext1, he1, hk1⟩ := notifyOneKey_log_ext o rev k'
    obtain ⟨ext2, he2, hk2⟩ := ih (notifyOneKey o rev k') hks.2
    refine ⟨ext1 ++ ext2, ?_, ?_⟩
    · rw [notifyKeys, he2, he1, List.append_assoc]
    · intro e he
      rcases List.mem_append.mp he with h1 | h1
      · rw [hk1 e h1]
        exact fun hc => hks.1 hc.symm
      · exact hk2 e h1

theorem notifyKeys_log_count (rev : Nat) (ks : List Key) (o : Obj) (k : Key) (r : Reg)
    (hcount : ks.count k = 1)
    (hstar : observersFor o "*" = [])
    (hr : r ∈ observersFor o k)
    (hfresh : ∀ r' ∈ observersFor o k, r'.rev ≠ rev)
    (hpw : (observersFor o k).Pairwise (fun a b => ¬(a.target = b.target ∧ a.method = b.method))) :
    ∃ ext, (notifyKeys o rev ks).log = o.log ++ ext ∧
      countInv ext r.target r.method k = 1 := by
  induction ks generalizing o with
  | nil => simp [List.count_nil] at hcount
  | cons k' t ih =>
    by_cases hk : k' = k
    · subst hk
      have hct : t.count k' = 0 := by
        have := List.count_cons_self k' t
        omega
      have hnt : k' ∉ t := by
        intro hmem
        have := List.count_pos_iff.mpr hmem
        omega
      have hlook : lookupAssoc o.observers k' = some (observersFor o k') :=
        observersFor_lookup o k' (by intro hnil; rw [hnil] at hr; cases hr)
      have hlog1 := notifyOneKey_log_self o rev k' (observersFor o k') hlook hfresh hstar
      obtain ⟨ext2, he2, hk2⟩ := notifyKeys_log_keys rev t (notifyOneKey o rev k') k' hnt
      refine ⟨(observersFor o k').map (mkEntry k' rev) ++ ext2, ?_, ?_⟩
      · rw [notifyKeys, he2, hlog1, List.append_assoc]
      · rw [countInv_append]
        rw [countInv_map_mkEntry (observersFor o k') k' rev r hr hpw]
        rw [countInv_zero_of_key_ne ext2 r.target r.method k' hk2]
    · have hct : t.count k = 1 := by
        rw [List.count_cons] at hcount
        simpa [hk] using hcount
      obtain ⟨ext1, he1, hk1⟩ := notifyOneKey_log_ext o rev k'
      have hobs := notifyOneKey_observers_ne o rev k' k (fun he => hk he.symm)
      obtain ⟨ext2, he2, hc2⟩ := ih (notifyOneKey o rev k') hct
        (notifyOneKey_star o rev k' hstar) (hobs ▸ hr) (hobs ▸ hfresh) (hobs ▸ hpw)
      refine ⟨ext1 ++ ext2, ?_, ?_⟩
      · rw [notifyKeys, he2, he1, List.append_assoc]
      · rw [countInv_append, hc2]
        rw [countInv_zero_of_key_ne ext1 r.target r.method k]
        intro e he
        rw [hk1 e he]
        exact hk

theorem flushIter_once (o : Obj) (k : Key) (r : Reg)
    (hch : o.changes.Nodup) (hmem : k ∈ o.changes)
    (hstar : observersFor o "*" = [])
    (hr : r ∈ observersFor o k)
    (hfresh : ∀ r' ∈ observersFor o k, r'.rev ≠ o.propertyRevision)
    (hpw : (observersFor o k).Pairwise
      (fun a b => ¬(a.target = b.target ∧ a.method = b.method))) :
    ∃ ext, (flushIter o none).log = o.log ++ ext ∧
      countInv ext r.target r.method k = 1 := by
  unfold flushIter expandDependents
  have hobs : ∀ x, observersFor
      (expandStep (o.changes.length + totalDeps { o with
        propertyRevision := o.propertyRevision + 1, changes := [] } + 1)
        (o.changes, { o with propertyRevision := o.propertyRevision + 1, changes := [] }) 0).2 x
      = observersFor o x := by
    intro x
    unfold observersFor
    rw [expandStep_observers]
  have hlog : (expandStep (o.changes.length + totalDeps { o with
      propertyRevision := o.propertyRevision + 1, changes := [] } + 1)
      (o.changes, { o with propertyRevision := o.propertyRevision + 1, changes := [] }) 0).2.log
      = o.log := by
    rw [expandStep_log]
  have hnd : (expandStep (o.changes.length + totalDeps { o with
      propertyRevision := o.propertyRevision + 1, changes := [] } + 1)
      (o.changes, { o with propertyRevision := o.propertyRevision + 1, changes := [] }) 0).1.Nodup :=
    expandStep_nodup _ _ _ hch
  have hm : k ∈ (expandStep (o.changes.length + totalDeps { o with
      propertyRevision := o.propertyRevision + 1, changes := [] } + 1)
      (o.changes, { o with propertyRevision := o.propertyRevision + 1, changes := [] }) 0).1 :=
    expandStep_mem _ _ _ k hmem
  have hcount : (expandStep (o.changes.length + totalDeps { o with
      propertyRevision := o.propertyRevision + 1, changes := [] } + 1)
      (o.changes, { o with propertyRevision := o.propertyRevision + 1, changes := [] }) 0).1.reverse.count k
      = 1 := by
    rw [List.count_reverse]
    exact List.count_eq_one_of_mem hnd hm
  obtain ⟨ext, he, hc⟩ := notifyKeys_log_count o.propertyRevision _ _ k r hcount
    ((hobs "*").trans hstar) ((hobs k) ▸ hr) ((hobs k) ▸ hfresh) ((hobs k) ▸ hpw)
  exact ⟨ext, by rw [he, hlog], hc⟩

theorem propertyDidChange_batch (o : Obj) (k : Key) (h : 0 < o.changeLevel) :
    (propertyDidChange o k).changeLevel = o.changeLevel ∧
    (propertyDidChange o k).observers = o.observers ∧
    (propertyDidChange o k).log = o.log ∧
    (propertyDidChange o k).propertyRevision = o.propertyRevision ∧
    (propertyDidChange o k).suspended = o.suspended ∧
    (propertyDidChange o k).suppressed = o.suppressed ∧
    (propertyDidChange o k).changes = addSet o.changes k := by
  unfold propertyDidChange
  have hif : 0 < o.changeLevel ∨ o.suspended = true := Or.inl h
  cases hl : lookupAssoc o.props k with
  | none => simp [hif]
  | some s =>
    cases s with
    | plain w => simp [hif]
    | comp c =>
      by_cases hcc : c.isCacheable <;>
        simp [hcc, hif, setSlot]

theorem pdc_or_id_batch (o0 o2 : Obj) (k : Key) (b : Prop) [Decidable b]
    (hlvl : o2.changeLevel = o0.changeLevel) (hobs : o2.observers = o0.observers)
    (hlog : o2.log = o0.log) (hpr : o2.propertyRevision = o0.propertyRevision)
    (hsus : o2.suspended = o0.suspended) (hsup : o2.suppressed = o0.suppressed)
    (hchg : o2.changes = o0.changes) (h : 0 < o0.changeLevel) :
    (if b then propertyDidChange o2 k else o2).changeLevel = o0.changeLevel ∧
    (if b then propertyDidChange o2 k else o2).observers = o0.observers ∧
    (if b then propertyDidChange o2 k else o2).log = o0.log ∧
    (if b then propertyDidChange o2 k else o2).propertyRevision = o0.propertyRevision ∧
    (if b then propertyDidChange o2 k else o2).suspended = o0.suspended ∧
    (if b then propertyDidChange o2 k else o2).suppressed = o0.suppressed ∧
    ((if b then propertyDidChange o2 k else o2).changes = o0.changes ∨
      (if b then propertyDidChange o2 k else o2).changes = addSet o0.changes k) := by
  split
  · have hpd := propertyDidChange_batch o2 k (by rw [hlvl]; exact h)
    exact ⟨hpd.1.trans hlvl, hpd.2.1.trans hobs, hpd.2.2.1.trans hlog,
      hpd.2.2.2.1.trans hpr, hpd.2.2.2.2.1.trans hsus, hpd.2.2.2.2.2.1.trans hsup,
      Or.inr (hpd.2.2.2.2.2.2.trans (by rw [hchg]))⟩
  · exact ⟨hlvl, hobs, hlog, hpr, hsus, hsup, Or.inl hchg⟩

theorem setBody_batch (o : Obj) (k : Key) (v : Val) (h : 0 < o.changeLevel) :
    (setBody o k v).changeLevel = o.changeLevel ∧
    (setBody o k v).observers = o.observers ∧
    (setBody o k v).log = o.log ∧
    (setBody o k v).propertyRevision = o.propertyRevision ∧
    (setBody o k v).suspended = o.suspended ∧
    (setBody o k v).suppressed = o.suppressed ∧
    ((setBody o k v).changes = o.changes ∨ (setBody o k v).changes = addSet o.changes k) := by
  unfold setBody
  cases hl : lookupAssoc o.props k with
  | none =>
    simp only [hl]
    exact pdc_or_id_batch o _ k _ (by simp [setSlot]) (by simp [setSlot]) (by simp [setSlot])
      (by simp [setSlot]) (by simp [setSlot]) (by simp [setSlot]) (by simp [setSlot]) h
  | some s =>
    cases s with
    | plain w =>
      simp only [hl]
      by_cases hw : w ≠ v
      · rw [if_pos hw]
        exact pdc_or_id_batch o _ k _ (by simp [setSlot]) (by simp [setSlot]) (by simp [setSlot])
          (by simp [setSlot]) (by simp [setSlot]) (by simp [setSlot]) (by simp [setSlot]) h
      · rw [if_neg hw]
        exact ⟨rfl, rfl, rfl, rfl, rfl, rfl, Or.inl rfl⟩
    | comp c =>
      simp only [hl]
      by_cases hcond : c.isVolatile ∨ c.lastSet ≠ some v
      · rw [if_pos hcond]
        by_cases hcc : c.isCacheable
        · rw [if_pos hcc]
          exact pdc_or_id_batch o _ k _ (by simp [setSlot]) (by simp [setSlot])
            (by simp [setSlot]) (by simp [setSlot]) (by simp [setSlot]) (by simp [setSlot])
            (by simp [setSlot]) h
        · rw [if_neg hcc]
          exact pdc_or_id_batch o _ k _ (by simp [setSlot]) (by simp [setSlot])
            (by simp [setSlot]) (by simp [setSlot]) (by simp [setSlot]) (by simp [setSlot])
            (by simp [setSlot]) h
      · rw [if_neg hcond]
        exact ⟨rfl, rfl, rfl, rfl, rfl, rfl, Or.inl rfl⟩

theorem set_batch (o : Obj) (k : Key) (v : Val) (h : 0 < o.changeLevel) :
    (Obj.set o k v).changeLevel = o.changeLevel ∧
    (Obj.set o k v).observers = o.observers ∧
    (Obj.set o k v).log = o.log ∧
    (Obj.set o k v).propertyRevision = o.propertyRevision ∧
    (Obj.set o k v).suspended = o.suspended ∧
    (Obj.set o k v).suppressed = o.suppressed ∧
    ((Obj.set o k v).changes = o.changes ∨ (Obj.set o k v).changes = addSet o.changes k) := by
  have hb := setBody_batch o k v h
  have hcl := clearCachedDependentsOf_fields (setBody o k v) k
  unfold Obj.set
  exact ⟨hcl.1.trans hb.1, hcl.2.2.2.2.2.1.trans hb.2.1, hcl.2.2.2.2.2.2.2.2.2.1.trans hb.2.2.1,
    hcl.2.2.2.1.trans hb.2.2.2.1, hcl.2.2.2.2.1.trans hb.2.2.2.2.1,
    hcl.2.2.2.2.2.2.2.2.1.trans hb.2.2.2.2.2.1,
    by rw [hcl.2.1]; exact hb.2.2.2.2.2.2⟩

theorem addSet_idem (s : List Key) (k : Key) : addSet (addSet s k) k = addSet s k := by
  unfold addSet
  by_cases hm : k ∈ s
  · simp [hm]
  · simp [hm]

theorem applySets_batch (k : Key) (vs : List Val) (o : Obj) (h : 0 < o.changeLevel) :
    (applySets o k vs).changeLevel = o.changeLevel ∧
    (applySets o k vs).observers = o.observers ∧
    (applySets o k vs).log = o.log ∧
    (applySets o k vs).propertyRevision = o.propertyRevision ∧
    ((applySets o k vs).changes = o.changes ∨ (applySets o k vs).changes = addSet o.changes k) := by
  induction vs generalizing o with
  | nil => exact ⟨rfl, rfl, rfl, rfl, Or.inl rfl⟩
  | cons v t ih =>
    have hs := set_batch o k v h
    have ht := ih (Obj.set o k v) (by rw [hs.1]; exact h)
    refine ⟨ht.1.trans hs.1, ht.2.1.trans hs.2.1, ht.2.2.1.trans hs.2.2.1,
      ht.2.2.2.1.trans hs.2.2.2.1, ?_⟩
    rcases ht.2.2.2.2 with h1 | h1 <;> rcases hs.2.2.2.2.2.2 with h2 | h2
    · exact Or.inl (h1.trans h2)
    · exact Or.inr (h1.trans h2)
    · exact Or.inr (h1.trans (by rw [h2]))
    · exact Or.inr (h1.trans (by rw [h2, addSet_idem]))

theorem endPropertyChanges_log_flush (O : Obj) (hlev : O.changeLevel = 1)
    (hne : O.changes ≠ []) :
    (endPropertyChanges O).log = (flushIter { O with changeLevel := (1 : Int) } none).log := by
  unfold endPropertyChanges
  rw [hlev]
  norm_num
  rw [if_neg hne]
  unfold notifyPropertyObservers
  have h01 : ({ O with changeLevel := (0 : Int) } : Obj).changeLevel + 1 = (1 : Int) := by
    norm_num
  simp only [flushLoop]
  rw [if_neg (by simp [hne])]
  rw [if_pos ⟨flushIter_changes _ _, trivial⟩]
  simp only [h01]

/-- C1: inside a `beginPropertyChanges`/`endPropertyChanges` batch in which
key `k` was actually changed (the pending set is non-empty when the batch
ends — the condition for the batch-ending flush to run), each observer
registration on `k` receives exactly one invocation from the flush,
regardless of how many times `k` was set inside the batch.  Hypotheses: the
object starts outside any batch with an empty pending set, has no wildcard
observers, every registration's revision stamp is older than the current
flush revision (true of every freshly added registration, whose stamp starts
below `propertyRevision`), and — per the spec's observer-registry invariant —
a `(target, method)` pair is registered at most once on `k`. -/
theorem observer_notified_once_per_batch (o : Obj) (k : Key) (vs : List Val) (r : Reg)
    (hlvl : o.changeLevel = 0) (hch : o.changes = [])
    (hstar : observersFor o "*" = [])
    (hr : r ∈ observersFor o k)
    (hfresh : ∀ r' ∈ observersFor o k, r'.rev < o.propertyRevision)
    (hpw : (observersFor o k).Pairwise
      (fun a b => ¬(a.target = b.target ∧ a.method = b.method)))
    (hne : (applySets (beginPropertyChanges o) k vs).changes ≠ []) :
    countInv ((endPropertyChanges (applySets (beginPropertyChanges o) k vs)).log.drop
      (applySets (beginPropertyChanges o) k vs).log.length) r.target r.method k = 1 := by
  have h1 : 0 < (beginPropertyChanges o).changeLevel := by
    simp [beginPropertyChanges, hlvl]
  have hbatch := applySets_batch k vs (beginPropertyChanges o) h1
  have hlev2 : (applySets (beginPropertyChanges o) k vs).changeLevel = 1 := by
    rw [hbatch.1]
    simp [beginPropertyChanges, hlvl]
  have hobs2 : (applySets (beginPropertyChanges o) k vs).observers = o.observers :=
    hbatch.2.1
  have hlog2 : (applySets (beginPropertyChanges o) k vs).log = o.log := hbatch.2.2.1
  have hpr2 : (applySets (beginPropertyChanges o) k vs).propertyRevision
      = o.propertyRevision := hbatch.2.2.2.1
  have hch2 : (applySets (beginPropertyChanges o) k vs).changes = [k] := by
    rcases hbatch.2.2.2.2 with hx | hx
    · exact absurd (hx.trans hch) hne
    · rw [hx]
      show addSet o.changes k = [k]
      rw [hch]
      simp [addSet]
  have hendlog := endPropertyChanges_log_flush (applySets (beginPropertyChanges o) k vs)
    hlev2 hne
  have hobs3 : ∀ x, observersFor
      { applySets (beginPropertyChanges o) k vs with changeLevel := (1 : Int) } x
      = observersFor o x := by
    intro x
    unfold observersFor
    show (lookupAssoc (applySets (beginPropertyChanges o) k vs).observers x).getD [] = _
    rw [hobs2]
  obtain ⟨ext, hex, hcnt⟩ := flushIter_once
    { applySets (beginPropertyChanges o) k vs with changeLevel := (1 : Int) } k r
    (by show (applySets (beginPropertyChanges o) k vs).changes.Nodup
        rw [hch2]
        simp)
    (by show k ∈ (applySets (beginPropertyChanges o) k vs).changes
        rw [hch2]
        simp)
    ((hobs3 "*").trans hstar)
    ((hobs3 k) ▸ hr)
    (by rw [hobs3 k]
        show ∀ r' ∈ observersFor o k,
          r'.rev ≠ (applySets (beginPropertyChanges o) k vs).propertyRevision
        rw [hpr2]
        intro r' hr'
        exact Nat.ne_of_lt (hfresh r' hr'))
    ((hobs3 k) ▸ hpw)
  have hXlog : ({ applySets (beginPropertyChanges o) k vs with
      changeLevel := (1 : Int) } : Obj).log = (applySets (beginPropertyChanges o) k vs).log := rfl
  rw [hendlog, hex, hXlog, List.drop_left]
  exact hcnt

theorem observer_notified_once_per_batch_witness :
    (applySets (beginPropertyChanges o1w) "a" [Val.num 2, Val.num 3, Val.num 2]).changes ≠ [] ∧
    countInv ((endPropertyChanges (applySets (beginPropertyChanges o1w) "a"
        [Val.num 2, Val.num 3, Val.num 2])).log.drop
      (applySets (beginPropertyChanges o1w) "a" [Val.num 2, Val.num 3, Val.num 2]).log.length)
      none 7 "a" = 1 :=
  ⟨by decide, observer_notified_once_per_batch o1w "a" [Val.num 2, Val.num 3, Val.num 2]
    ⟨none, 7, 0⟩ rfl rfl rfl (by decide) (by decide) (by decide) (by decide)⟩

/-- C3: the event-resolution order of `tryToHandleEvent`, first match wins:
(1) a name collision with a registered event handler or state-observe
handler is not handled (warning logged, nothing dispatched); (2) a
same-named method; (3) a handler registered for the literal event string;
(4) the first registered pattern handler matching the event, in
registration order; (5) `unknownEvent` when declared; otherwise not
handled.  For every dispatched handler, a return value strictly equal to
`false` means "not handled" and every other return value (including
`undefined`) means "handled". -/
theorem tryToHandleEvent_resolution (s : StateNode) (event : String) :
    ((event ∈ s.registeredEventHandlerNames ∨ event ∈ s.registeredStateObserveHandlerNames) →
      tryToHandleEvent s event = ⟨false, none, true⟩) ∧
    (event ∉ s.registeredEventHandlerNames → event ∉ s.registeredStateObserveHandlerNames →
      (∀ rv, lookupAssoc s.methods event = some rv →
        tryToHandleEvent s event = ⟨jsNotNO rv, some event, false⟩) ∧
      (lookupAssoc s.methods event = none →
        (∀ n rv, lookupAssoc s.stringHandlers event = some (n, rv) →
          tryToHandleEvent s event = ⟨jsNotNO rv, some n, false⟩) ∧
        (lookupAssoc s.stringHandlers event = none →
          (∀ h, s.regexpHandlers.find? (fun hh => hh.matchTest event) = some h →
            tryToHandleEvent s event = ⟨jsNotNO h.ret, some h.name, false⟩) ∧
          (s.regexpHandlers.find? (fun hh => hh.matchTest event) = none →
            (∀ rv, s.unknownEvent = some rv →
              tryToHandleEvent s event = ⟨jsNotNO rv, some "unknownEvent", false⟩) ∧
            (s.unknownEvent = none → tryToHandleEvent s event = ⟨false, none, false⟩))))) ∧
    (∀ rv : Option Val, jsNotNO rv = false ↔ rv = some (Val.bool false)) := by
  refine ⟨?_, ?_, ?_⟩
  · intro h
    unfold tryToHandleEvent
    by_cases h1 : event ∈ s.registeredEventHandlerNames
    · rw [if_pos h1]
    · rcases h with h | h
      · exact absurd h h1
      · rw [if_neg h1, if_pos h]
  · intro h1 h2
    unfold tryToHandleEvent
    rw [if_neg h1, if_neg h2]
    refine ⟨fun rv hrv => by simp only [hrv], fun hm => ?_⟩
    simp only [hm]
    refine ⟨fun n rv hs => by simp only [hs], fun hs => ?_⟩
    simp only [hs]
    refine ⟨fun h hf => by simp only [hf], fun hf => ?_⟩
    simp only [hf]
    exact ⟨fun rv hu => by simp only [hu], fun hu => by simp only [hu]⟩
  · intro rv
    cases rv with
    | none => simp [jsNotNO]
    | some v =>
      cases v with
      | bool b => cases b <;> simp [jsNotNO]
      | num n => simp [jsNotNO]
      | str t => simp [jsNotNO]
      | null => simp [jsNotNO]

theorem tryToHandleEvent_resolution_witness :
    tryToHandleEvent sn3 "go" = ⟨true, some "evh", false⟩ ∧
    tryToHandleEvent sn3 "evh" = ⟨false, none, true⟩ :=
  ⟨(((tryToHandleEvent_resolution sn3 "go").2.1 (by decide) (by decide)).2 rfl).1
      "evh" (some (Val.num 1)) rfl,
    (tryToHandleEvent_resolution sn3 "evh").1 (Or.inl (by decide))⟩

/-- C8 counterexample: for an event naming a registered state-observe
handler (whose same-named member function exists, as `initState` always
arranges), `respondsToEvent` returns `true` — its member-function check
precedes its observe-handler check — while `tryToHandleEvent` rejects the
event without dispatching any handler.  The claimed equivalence fails at
this input. -/
theorem respondsToEvent_counterexample :
    respondsToEvent sn8 "fooDidChange" = true ∧
    tryToHandleEvent sn8 "fooDidChange" = ⟨false, none, true⟩ :=
  ⟨rfl, rfl⟩

/-- C8 (amended): for every event that does not name a registered
state-observe handler, `respondsToEvent(event)` returns `true` exactly when
`tryToHandleEvent(event)` finds a handler to dispatch (a same-named method,
a literal string handler, a matching pattern handler, or `unknownEvent`)
rather than rejecting the event or falling through.  (For state-observe
handler names the two methods disagree: `respondsToEvent` checks the
same-named member before the observe-handler registry, `tryToHandleEvent`
the other way around.) -/
theorem respondsToEvent_amended (s : StateNode) (event : String)
    (hobs : event ∉ s.registeredStateObserveHandlerNames) :
    respondsToEvent s event = (tryToHandleEvent s event).dispatched.isSome := by
  unfold respondsToEvent tryToHandleEvent
  by_cases h1 : event ∈ s.registeredEventHandlerNames
  · simp [h1]
  · rw [if_neg h1, if_neg h1, if_neg hobs]
    cases hm : lookupAssoc s.methods event with
    | some rv => simp [hobs]
    | none =>
      simp only [Option.isSome_none, Bool.false_eq_true, if_false]
      cases hs : lookupAssoc s.stringHandlers event with
      | some p => simp [hobs]
      | none =>
        simp only [Option.isSome_none, Bool.false_eq_true, if_false]
        cases hf : s.regexpHandlers.find? (fun h => h.matchTest event) with
        | some h => simp [hobs]
        | none =>
          simp only [Option.isSome_none, Bool.false_eq_true, if_false]
          cases hu : s.unknownEvent with
          | some rv => simp [hobs]
          | none => simp [hobs]

theorem respondsToEvent_amended_witness :
    "go" ∉ sn3.registeredStateObserveHandlerNames ∧
    respondsToEvent sn3 "go" = (tryToHandleEvent sn3 "go").dispatched.isSome :=
  ⟨by decide, respondsToEvent_amended sn3 "go" (by decide)⟩

theorem subLookup_char (st : StateRec) (m : PathMatcher) (htok : m.tokens ≠ []) :
    subLookup st m =
      match ((lookupAssoc st.registeredSubstatePaths m.lastPart).getD []).filter
          (fun p => m.matchTest p.1) with
      | [p] => SubLookup.found p.2
      | [] => SubLookup.notFound
      | _ :: _ :: _ => SubLookup.ambiguous
          (((lookupAssoc st.registeredSubstatePaths m.lastPart).getD []).map (fun p => p.1)) := by
  unfold subLookup
  rw [if_neg htok]
  cases hlp : lookupAssoc st.registeredSubstatePaths m.lastPart with
  | none => simp
  | some paths => simp

/-- C5: for every state node and string path expression (with at least one
token): when zero registered substate paths match, the result is `null` or,
with a callback, the callback's result (invoked without candidate paths);
when exactly one matches, that substate is returned; when more than one
matches and no callback is given, an error is logged and `null` is
returned; when more than one matches and a callback is given, the callback
is invoked with the candidate paths — every registered path sharing the
expression's terminal segment — and its result is returned. -/
theorem getSubstate_resolution (st : StateRec) (m : PathMatcher)
    (cb : Option (Option (List String) → Option Val)) (htok : m.tokens ≠ []) :
    (((lookupAssoc st.registeredSubstatePaths m.lastPart).getD []).filter
        (fun p => m.matchTest p.1) = [] →
      getSubstate st (.path m) cb = notifySubstateNotFound cb none) ∧
    (∀ p, ((lookupAssoc st.registeredSubstatePaths m.lastPart).getD []).filter
        (fun p => m.matchTest p.1) = [p] →
      getSubstate st (.path m) cb = ⟨.state p.2, none, false⟩) ∧
    (1 < (((lookupAssoc st.registeredSubstatePaths m.lastPart).getD []).filter
        (fun p => m.matchTest p.1)).length → cb = none →
      getSubstate st (.path m) cb = ⟨.nullRes, none, true⟩) ∧
    (∀ f, 1 < (((lookupAssoc st.registeredSubstatePaths m.lastPart).getD []).filter
        (fun p => m.matchTest p.1)).length → cb = some f →
      getSubstate st (.path m) cb
        = ⟨.cbRes (f (some (((lookupAssoc st.registeredSubstatePaths m.lastPart).getD []).map
            (fun p => p.1)))),
          some (some (((lookupAssoc st.registeredSubstatePaths m.lastPart).getD []).map
            (fun p => p.1))), false⟩) := by
  refine ⟨?_, ?_, ?_, ?_⟩
  · intro hz
    unfold getSubstate
    dsimp only
    rw [subLookup_char st m htok, hz]
  · intro p hp
    unfold getSubstate
    dsimp only
    rw [subLookup_char st m htok, hp]
  · intro hlen hcb
    cases hfl : ((lookupAssoc st.registeredSubstatePaths m.lastPart).getD []).filter
        (fun p => m.matchTest p.1) with
    | nil => rw [hfl] at hlen; simp at hlen
    | cons a t =>
      cases t with
      | nil => rw [hfl] at hlen; simp at hlen
      | cons b t2 =>
        unfold getSubstate
        dsimp only
        rw [subLookup_char st m htok, hfl, hcb]
  · intro f hlen hcb
    cases hfl : ((lookupAssoc st.registeredSubstatePaths m.lastPart).getD []).filter
        (fun p => m.matchTest p.1) with
    | nil => rw [hfl] at hlen; simp at hlen
    | cons a t =>
      cases t with
      | nil => rw [hfl] at hlen; simp at hlen
      | cons b t2 =>
        unfold getSubstate
        dsimp only
        rw [subLookup_char st m htok, hfl, hcb]

theorem getSubstate_resolution_witness :
    getSubstate st5 (.path m5) (some fun _ => some (Val.num 9))
      = ⟨.cbRes (some (Val.num 9)), some (some ["a.foo", "b.foo"]), false⟩ ∧
    getSubstate st5 (.path m5) none = ⟨.nullRes, none, true⟩ :=
  ⟨((getSubstate_resolution st5 m5 (some fun _ => some (Val.num 9)) (by decide)).2.2.2
      (fun _ => some (Val.num 9)) (by decide) rfl),
    ((getSubstate_resolution st5 m5 none (by decide)).2.2.1 (by decide) rfl)⟩

/-- C6: when `gotoSubstate` is given a value that `getSubstate` cannot
resolve, or `gotoHistoryState` is given a value that `getState` cannot
resolve, an error is logged and the call returns without invoking the
statechart's transition machinery: no orchestrator call is made and the
chart's current/entered bookkeeping is unchanged — for every possible
orchestrator. -/
theorem goto_invalid_target_abandons (orch : OrchCall → Chart → Chart) (c : Chart)
    (sid : Nat) (v : StateValue) (recursive : Bool) :
    (∀ st, stateAt c sid = some st → getSubstateNoCb st v = none →
      gotoSubstate orch c sid v = ⟨c, true, none⟩) ∧
    (getState c (c.states.length + 1) sid v = none →
      gotoHistoryState orch c sid v recursive = ⟨c, true, none⟩) := by
  constructor
  · intro st hst hres
    unfold gotoSubstate
    simp only [hst, hres]
  · intro hres
    unfold gotoHistoryState
    simp only [hres]

theorem goto_invalid_target_abandons_witness :
    (getSubstateNoCb st6r (.path mNope) = none ∧
      gotoSubstate orchW ch6 0 (.path mNope) = ⟨ch6, true, none⟩) ∧
    (getState ch6 (ch6.states.length + 1) 0 (.path mNope) = none ∧
      gotoHistoryState orchW ch6 0 (.path mNope) false = ⟨ch6, true, none⟩) :=
  ⟨⟨rfl, (goto_invalid_target_abandons orchW ch6 0 (.path mNope) false).1 st6r rfl rfl⟩,
    ⟨rfl, (goto_invalid_target_abandons orchW ch6 0 (.path mNope) false).2 rfl⟩⟩

